import Mathlib

/-!
Shallow embedding of the four-player co-operative platformer simulation
(`src/components/four-player-platformer.tsx`).

Positions, velocities and timestamps are modelled as rationals; tile
coordinates are integers; the tile grid is a list of rows of characters.
Rendering, audio and particle effects are presentation-only side effects in
the source and are omitted; everything that reads or writes simulation state
is translated directly.
-/

namespace Platformer

/-- World-space 2D vector (`Vec2` in the source). -/
structure Vec2 where
  x : ℚ
  y : ℚ
deriving DecidableEq

/-- A tile coordinate pair `(tx, ty)`. -/
abbrev Coord := Int × Int

/-- `Level` record: tile rows, dimensions, cell size, and the door flag. -/
structure Level where
  tiles : List (List Char)
  w : Int
  h : Int
  tileSize : ℚ
  doorOpen : Bool
deriving DecidableEq

/-- `TempPlatform` record of the Ephemeral Platform Registry. -/
structure TempPlatform where
  tx : Int
  ty : Int
  expiresAt : ℚ
deriving DecidableEq

/-- `PlateState` record for a pressure plate. -/
structure PlateState where
  tx : Int
  ty : Int
  pressed : Bool
  pressTime : ℚ
deriving DecidableEq

/-- Gameplay constants from the source. -/
def TILE : ℚ := 32
def GRAVITY : ℚ := 1800
def MOVE_SPEED : ℚ := 280
def JUMP_SPEED : ℚ := 700
def MAX_FALL : ℚ := 1200
def FRICTION : ℚ := 0.85
def AIR_DRAG : ℚ := 0.99
def SWIM_SPEED : ℚ := 180
def SWIM_UP_FORCE : ℚ := 1800
def SWIM_MAX_UP : ℚ := -260
def SWIM_MAX_DOWN : ℚ := 420
def WATER_DRAG_X : ℚ := 0.92
def DASH_SPEED : ℚ := 900
def DASH_DURATION : ℚ := 0.18
def DASH_COOLDOWN : ℚ := 3
def EARTH_COOLDOWN : ℚ := 4

/-- `clamp(v, min, max)`. -/
def clamp (v min max : ℚ) : ℚ := Max.max min (Min.min max v)

/-- `worldToTile(x, y, tileSize)`. -/
def worldToTile (x y tileSize : ℚ) : Coord := (⌊x / tileSize⌋, ⌊y / tileSize⌋)

/-- `isSolid(ch, doorOpen)`. -/
def isSolid (ch : Char) (doorOpen : Bool) : Bool :=
  if ch = '#' then true
  else if ch = 'Z' then !doorOpen
  else if ch = 'b' then true
  else if ch = 'X' then true
  else false

/-- `isPlate(ch)`. -/
def isPlate (ch : Char) : Bool := ch = 'P'

/-- `isColoredHole(ch)`. -/
def isColoredHole (ch : Char) : Bool :=
  ch = 'f' ∨ ch = 'a' ∨ ch = 'e' ∨ ch = 'n'

/-- `safePlayerForColoredHole(ch)` (`null` becomes `none`). -/
def safePlayerForColoredHole (ch : Char) : Option Nat :=
  if ch = 'f' then some 1
  else if ch = 'a' then some 2
  else if ch = 'e' then some 3
  else if ch = 'n' then some 4
  else none

/-- `isLiquidForPlayer(ch, playerId)`. -/
def isLiquidForPlayer (ch : Char) (playerId : Nat) : Bool :=
  if ch = 'W' then true
  else if isColoredHole ch then safePlayerForColoredHole ch = some playerId
  else false

/-- `isHazardFor(ch, playerId)`. -/
def isHazardFor (ch : Char) (playerId : Nat) : Bool :=
  if ch = '~' then true
  else if ch = 'O' then true
  else if isColoredHole ch then safePlayerForColoredHole ch ≠ some playerId
  else false

/-- `tileAt(level, tx, ty)`: out-of-bounds coordinates resolve to the wall
symbol; in-bounds reads index the row list. -/
def tileAt (level : Level) (tx ty : Int) : Char :=
  if ty < 0 ∨ ty ≥ level.h ∨ tx < 0 ∨ tx ≥ level.w then '#'
  else (level.tiles.getD ty.toNat []).getD tx.toNat '#'

/-- `setTile(level, tx, ty, ch)`: out-of-bounds writes are dropped. -/
def setTile (level : Level) (tx ty : Int) (ch : Char) : Level :=
  if ty < 0 ∨ ty ≥ level.h ∨ tx < 0 ∨ tx ≥ level.w then level
  else { level with
          tiles := level.tiles.set ty.toNat ((level.tiles.getD ty.toNat []).set tx.toNat ch) }

/-- `solidAt(level, x, y)`. -/
def solidAt (level : Level) (x y : ℚ) : Bool :=
  let c := worldToTile x y level.tileSize
  isSolid (tileAt level c.1 c.2) level.doorOpen

/-- `tileCharAt(level, x, y)`. -/
def tileCharAt (level : Level) (x y : ℚ) : Char :=
  let c := worldToTile x y level.tileSize
  tileAt level c.1 c.2

/-- Axis-aligned rectangle with rational coordinates. -/
structure RectQ where
  x : ℚ
  y : ℚ
  w : ℚ
  h : ℚ

/-- `rectIntersect(a, b)`. -/
def rectIntersect (a b : RectQ) : Bool :=
  !(a.x + a.w ≤ b.x ∨ a.x ≥ b.x + b.w ∨ a.y + a.h ≤ b.y ∨ a.y ≥ b.y + b.h)

/-- `Player` record (presentation-only fields `name`, `color`, `controls`
are omitted; key states are supplied by the input environment). -/
structure Player where
  id : Nat
  spawn : Vec2
  pos : Vec2
  vel : Vec2
  w : ℚ
  h : ℚ
  onGround : Bool
  jumpLock : Bool
  alive : Bool
  exitReached : Bool
  facing : Int
  maxAirJumps : Nat
  airJumpsLeft : Nat
  isDashing : Bool
  dashUntil : ℚ
  dashCooldownUntil : ℚ
  abilityCooldownUntil : ℚ
  nextStepFxTime : ℚ
deriving DecidableEq

/-- Per-actor, per-frame input environment (the input collaborator of the
spec): held states of the four logical buttons, double-tap events for the
three movement keys, and the dash-direction normalisation.  The source
normalises the integer dash direction with `Math.hypot` (an irrational
square root that rationals cannot represent exactly); `dashNorm dx dy`
stands for the resulting pair `(dx/len*DASH_SPEED, dy/len*DASH_SPEED)` and
is supplied by the environment.  No claim depends on its value. -/
structure Env where
  leftDown : Bool
  rightDown : Bool
  jumpDown : Bool
  actionDown : Bool
  dtapLeft : Bool
  dtapRight : Bool
  dtapJump : Bool
  dashNorm : Int → Int → ℚ × ℚ

/-- Body of the candidate loop of `doFireAction`: break a breakable-barrier
or earth-platform tile to empty. -/
def fireBreakAt (lv : Level) (c : Coord) : Level :=
  let ch := tileAt lv c.1 c.2
  if ch = 'b' ∨ ch = 'X' then setTile lv c.1 c.2 '.' else lv

/-- `doFireAction(level, p)` together with the registry filter that removes
broken earth platforms (sounds and particles omitted). -/
def doFireAction (level : Level) (temps : List TempPlatform) (p : Player) :
    Level × List TempPlatform :=
  let aheadX := p.pos.x + (p.facing : ℚ) * (p.w / 2 + 4)
  let c1 := worldToTile aheadX p.pos.y level.tileSize
  let c2 := worldToTile p.pos.x p.pos.y level.tileSize
  let candidates : List Coord := [c1, c2, (c2.1, c2.2 + 1), (c2.1, c2.2 - 1)]
  let level := candidates.foldl fireBreakAt level
  (level, temps.filter fun tp => tileAt level tp.tx tp.ty = 'X')

/-- The eight flood-fill directions `dirs8`. -/
def dirs8 : List (Int × Int) :=
  [(-1, -1), (0, -1), (1, -1), (-1, 0), (1, 0), (-1, 1), (0, 1), (1, 1)]

/-- Body of the neighbour loop inside the flood fill: enqueue and mark an
unseen dark-hole neighbour of the just-converted tile `c`. -/
def floodPush (level' : Level) (c : Coord) (acc : List Coord × List Coord)
    (d : Int × Int) : List Coord × List Coord :=
  let n : Coord := (c.1 + d.1, c.2 + d.2)
  if n ∉ acc.2 ∧ tileAt level' n.1 n.2 = 'O' then (acc.1 ++ [n], acc.2 ++ [n])
  else acc

/-- The `while` loop of `doWaterAction`: breadth-first conversion of
connected dark holes, capped at `maxFill` conversions.  Returns the level,
the `seen` set (as a list) and `convertedCount`. -/
def floodLoop (maxFill : Nat) :
    Level → List Coord → List Coord → Nat → Level × List Coord × Nat
  | level, [], seen, count => (level, seen, count)
  | level, c :: rest, seen, count =>
    if h : count < maxFill then
      if tileAt level c.1 c.2 ≠ 'O' then
        floodLoop maxFill level rest seen count
      else
        let level' := setTile level c.1 c.2 'W'
        let step := dirs8.foldl (floodPush level' c) (rest, seen)
        floodLoop maxFill level' step.1 step.2 (count + 1)
    else (level, seen, count)
termination_by _ q _ count => (maxFill - count, q.length)
decreasing_by
  · exact Prod.Lex.right _ (by simp)
  · exact Prod.Lex.left _ _ (by omega)

/-- The seed scan of `doWaterAction`: every dark-hole tile in the 3×3
neighbourhood of `start` (row-major order as in the source). -/
def waterSeeds (level : Level) (start : Coord) : List Coord :=
  ([-1, 0, 1] : List Int).flatMap fun dy =>
    ([-1, 0, 1] : List Int).filterMap fun dx =>
      let u : Coord := (start.1 + dx, start.2 + dy)
      if tileAt level u.1 u.2 = 'O' then some u else none

/-- `doWaterAction(level, p)` (sound and splash effects omitted). -/
def doWaterAction (level : Level) (p : Player) : Level :=
  let start := worldToTile p.pos.x p.pos.y level.tileSize
  let seeds := waterSeeds level start
  if seeds = [] then level
  else (floodLoop 2000 level seeds seeds 0).1

/-- The `canPlace` predicate local to `doEarthAction`. -/
def canPlace (level : Level) (tx ty : Int) : Bool :=
  let ch := tileAt level tx ty
  ch = '.' ∨ ch = 'O' ∨ ch = 'W' ∨ isColoredHole ch

/-- `doEarthAction(level, p)`; returns the mutated level, the registry
(with the new entry pushed and, over the cap of 12, the shifted oldest
entry's tile reverted) and whether a platform was placed. -/
def doEarthAction (level : Level) (temps : List TempPlatform) (p : Player)
    (now : ℚ) : Level × List TempPlatform × Bool :=
  let under := worldToTile p.pos.x (p.pos.y + p.h / 2 + 4) level.tileSize
  let ahead := worldToTile (p.pos.x + (p.facing : ℚ) * (p.w / 2 + 8)) p.pos.y level.tileSize
  let placedAt : Option Coord :=
    if canPlace level under.1 under.2 then some under
    else if canPlace level ahead.1 ahead.2 then some ahead
    else none
  match placedAt with
  | none => (level, temps, false)
  | some c =>
    let level := setTile level c.1 c.2 'X'
    let temps := temps ++ [⟨c.1, c.2, now + 7000⟩]
    if temps.length > 12 then
      match temps with
      | [] => (level, temps, true)
      | oldest :: restTemps => (setTile level oldest.tx oldest.ty '.', restTemps, true)
    else (level, temps, true)

/-- `moveAndCollide(level, p, dt)`. -/
def moveAndCollide (level : Level) (p : Player) (dt : ℚ) : Player :=
  let nx0 := p.pos.x + p.vel.x * dt
  let ny0 := p.pos.y + p.vel.y * dt
  let halfW := p.w / 2
  let halfH := p.h / 2
  let hres : ℚ × ℚ :=
    if p.vel.x > 0 then
      if solidAt level (nx0 + halfW) (p.pos.y - halfH) ∨
         solidAt level (nx0 + halfW) (p.pos.y + halfH - 1) then
        let tx := ⌊(nx0 + halfW) / level.tileSize⌋
        ((tx : ℚ) * level.tileSize - halfW - 0.01, 0)
      else (nx0, p.vel.x)
    else if p.vel.x < 0 then
      if solidAt level (nx0 - halfW) (p.pos.y - halfH) ∨
         solidAt level (nx0 - halfW) (p.pos.y + halfH - 1) then
        let tx := ⌊(nx0 - halfW) / level.tileSize⌋ + 1
        ((tx : ℚ) * level.tileSize + halfW + 0.01, 0)
      else (nx0, p.vel.x)
    else (nx0, p.vel.x)
  let nx := hres.1
  let vres : ℚ × ℚ × Bool × Bool × Nat :=
    if p.vel.y > 0 then
      if solidAt level (nx - halfW + 1) (ny0 + halfH) ∨
         solidAt level (nx + halfW - 1) (ny0 + halfH) then
        let ty := ⌊(ny0 + halfH) / level.tileSize⌋
        ((ty : ℚ) * level.tileSize - halfH - 0.01, 0, true, false, p.maxAirJumps)
      else (ny0, p.vel.y, false, p.jumpLock, p.airJumpsLeft)
    else if p.vel.y < 0 then
      if solidAt level (nx - halfW + 1) (ny0 - halfH) ∨
         solidAt level (nx + halfW - 1) (ny0 - halfH) then
        let ty := ⌊(ny0 - halfH) / level.tileSize⌋ + 1
        ((ty : ℚ) * level.tileSize + halfH + 0.01, 0, false, p.jumpLock, p.airJumpsLeft)
      else (ny0, p.vel.y, false, p.jumpLock, p.airJumpsLeft)
    else (ny0, p.vel.y, false, p.jumpLock, p.airJumpsLeft)
  { p with
    pos := ⟨nx, vres.1⟩
    vel := ⟨hres.2, vres.2.1⟩
    onGround := vres.2.2.1
    jumpLock := vres.2.2.2.1
    airJumpsLeft := vres.2.2.2.2 }

/-- `tryStartWindDash(p)` (the deletion of consumed double-tap events from
the input collaborator's set is an effect on the collaborator, not on
simulation state). -/
def tryStartWindDash (env : Env) (now : ℚ) (p : Player) : Player :=
  if p.id ≠ 4 then p
  else if now < p.dashCooldownUntil then p
  else if p.isDashing then p
  else
    let tapped : Option (Fin 3) :=
      if env.dtapLeft then some 0
      else if env.dtapRight then some 1
      else if env.dtapJump then some 2
      else none
    match tapped with
    | none => p
    | some k =>
      let dx0 : Int := if k = 0 then -1 else if k = 1 then 1 else 0
      let dy0 : Int := if k = 2 then -1 else 0
      let dx := dx0 + (if env.leftDown then -1 else 0) + (if env.rightDown then 1 else 0)
      let dy := dy0 + (if env.jumpDown then -1 else 0)
      let v : ℚ × ℚ :=
        if dx = 0 ∧ dy = 0 then ((p.facing : ℚ) * DASH_SPEED, 0)
        else env.dashNorm dx dy
      { p with
        isDashing := true
        dashUntil := now + DASH_DURATION * 1000
        dashCooldownUntil := now + DASH_COOLDOWN * 1000
        vel := ⟨v.1, v.2⟩ }

/-- The Wind-dash block at the top of `updatePlayer` (trail particles
omitted). -/
def windPhase (env : Env) (now : ℚ) (p : Player) : Player :=
  if p.id = 4 then
    let p := if p.isDashing ∧ now ≥ p.dashUntil then { p with isDashing := false } else p
    if ¬p.isDashing then tryStartWindDash env now p else p
  else p

/-- The horizontal-movement block of `updatePlayer`. -/
def horizPhase (env : Env) (inLiquid : Bool) (p : Player) : Player :=
  if p.isDashing then p
  else
    let speed := if inLiquid then SWIM_SPEED else MOVE_SPEED
    if env.leftDown ∧ ¬env.rightDown then
      { p with vel := ⟨-speed, p.vel.y⟩, facing := -1 }
    else if env.rightDown ∧ ¬env.leftDown then
      { p with vel := ⟨speed, p.vel.y⟩, facing := 1 }
    else
      let vx :=
        if p.onGround ∧ ¬inLiquid then p.vel.x * FRICTION
        else p.vel.x * (if inLiquid then WATER_DRAG_X else AIR_DRAG)
      let vx := if |vx| < 6 then 0 else vx
      { p with vel := ⟨vx, p.vel.y⟩ }

/-- The vertical-physics block of `updatePlayer`. -/
def vertPhase (env : Env) (inLiquid : Bool) (dt : ℚ) (p : Player) : Player :=
  if p.isDashing then p
  else if inLiquid then
    let vy := p.vel.y + GRAVITY * 0.15 * dt
    let vy := if env.jumpDown then vy - SWIM_UP_FORCE * dt else vy
    { p with vel := ⟨p.vel.x, clamp vy SWIM_MAX_UP SWIM_MAX_DOWN⟩ }
  else
    let vy := p.vel.y + GRAVITY * dt
    { p with vel := ⟨p.vel.x, clamp vy (-JUMP_SPEED) MAX_FALL⟩ }

/-- The jump block of `updatePlayer` (jump sound omitted). -/
def jumpPhase (env : Env) (inLiquid : Bool) (p : Player) : Player :=
  if ¬p.isDashing ∧ ¬inLiquid then
    let p :=
      if env.jumpDown then
        if p.onGround ∧ ¬p.jumpLock then
          { p with vel := ⟨p.vel.x, -JUMP_SPEED⟩, onGround := false, jumpLock := true }
        else if ¬p.onGround ∧ p.airJumpsLeft > 0 then
          { p with vel := ⟨p.vel.x, -JUMP_SPEED * 0.9⟩, airJumpsLeft := p.airJumpsLeft - 1 }
        else p
      else p
    if ¬env.jumpDown ∧ p.onGround then { p with jumpLock := false } else p
  else p

/-- `pressPlateIfStanding(level, p)`: the plate map is an association list
keyed by tile coordinate; latching updates the matching unpressed record. -/
def pressPlateIfStanding (level : Level) (plates : List PlateState) (p : Player)
    (now : ℚ) : List PlateState :=
  let center := worldToTile p.pos.x p.pos.y level.tileSize
  let feet := worldToTile p.pos.x (p.pos.y + p.h / 2 + 2) level.tileSize
  ([center, feet] : List Coord).foldl
    (fun ps c =>
      if tileAt level c.1 c.2 = 'P' then
        ps.map fun st =>
          if st.tx = c.1 ∧ st.ty = c.2 ∧ ¬st.pressed then
            { st with pressed := true, pressTime := now }
          else st
      else ps)
    plates

/-- The hazard block of `updatePlayer`: `centerChar` is the tile character
sampled at the start of the update (before movement); the below-feet sample
uses the post-collision position. -/
def hazardPhase (level : Level) (centerChar : Char) (p : Player) (deaths : Nat) :
    Player × Nat :=
  let belowChar := tileCharAt level p.pos.x (p.pos.y + p.h / 2 + 2)
  if isHazardFor centerChar p.id ∨ isHazardFor belowChar p.id then
    ({ p with
        pos := p.spawn
        vel := ⟨0, 0⟩
        alive := true
        exitReached := false
        airJumpsLeft := p.maxAirJumps
        isDashing := false
        dashUntil := 0 }, deaths + 1)
  else (p, deaths)

/-- The ability-dispatch block of `updatePlayer`: Fire and Water have no
cooldown; Earth is gated by `abilityCooldownUntil`, armed only on a
successful placement. -/
def abilityPhase (justPressedAction : Bool) (now : ℚ) (level : Level)
    (temps : List TempPlatform) (p : Player) :
    Level × List TempPlatform × Player :=
  if justPressedAction then
    if p.id = 1 then
      let r := doFireAction level temps p
      (r.1, r.2, p)
    else if p.id = 2 then (doWaterAction level p, temps, p)
    else if p.id = 3 then
      if now ≥ p.abilityCooldownUntil then
        let r := doEarthAction level temps p now
        if r.2.2 then
          (r.1, r.2.1, { p with abilityCooldownUntil := now + EARTH_COOLDOWN * 1000 })
        else (r.1, r.2.1, p)
      else (level, temps, p)
    else (level, temps, p)
  else (level, temps, p)

/-- The step-particle block of `updatePlayer`: the only simulation-state
effect is advancing `nextStepFxTime`. -/
def stepFxPhase (inLiquid : Bool) (now : ℚ) (p : Player) : Player :=
  if ¬inLiquid ∧ p.onGround ∧ ¬p.isDashing ∧ |p.vel.x| > 60 ∧ p.nextStepFxTime ≤ now
  then { p with nextStepFxTime := now + 90 }
  else p

/-- The player's collision rectangle used by the exit check. -/
def playerRect (p : Player) : RectQ :=
  ⟨p.pos.x - p.w / 2, p.pos.y - p.h / 2, p.w, p.h⟩

/-- The exit-overlap check at the end of `updatePlayer`. -/
def exitPhase (exits : List Vec2) (level : Level) (p : Player) : Player :=
  let p := { p with exitReached := false }
  if exits.any (fun ex =>
      rectIntersect (playerRect p) ⟨ex.x, ex.y, level.tileSize, level.tileSize⟩) then
    { p with exitReached := true }
  else p

/-- Result of one `updatePlayer` call: the mutated shared state, the
updated player, the death counter, and the player's recorded action-held
state for the next frame's rising-edge detection. -/
structure UPResult where
  level : Level
  plates : List PlateState
  temps : List TempPlatform
  player : Player
  deaths : Nat
  prevAction : Bool

/-- The movement block of `updatePlayer` (steps before the plate check):
the Wind-dash block, horizontal input, vertical physics, the jump block and
collision resolution, in source order. -/
def preMove (env : Env) (now dt : ℚ) (level : Level) (p : Player) : Player :=
  let centerChar := tileCharAt level p.pos.x p.pos.y
  let inLiquid := isLiquidForPlayer centerChar p.id
  let p := windPhase env now p
  let p := horizPhase env inLiquid p
  let p := vertPhase env inLiquid dt p
  let p := jumpPhase env inLiquid p
  moveAndCollide level p dt

/-- `updatePlayer(level, p, dt)`: the full per-actor frame update, phase by
phase in source order. -/
def updatePlayer (exits : List Vec2) (env : Env) (now dt : ℚ) (level : Level)
    (plates : List PlateState) (temps : List TempPlatform) (prevA : Bool)
    (p : Player) (deaths : Nat) : UPResult :=
  let justPressedAction := env.actionDown && !prevA
  let centerChar := tileCharAt level p.pos.x p.pos.y
  let inLiquid := isLiquidForPlayer centerChar p.id
  let pm := preMove env now dt level p
  let plates := pressPlateIfStanding level plates pm now
  let hz := hazardPhase level centerChar pm deaths
  let ab := abilityPhase justPressedAction now level temps hz.1
  let q := stepFxPhase inLiquid now ab.2.2
  let q := exitPhase exits ab.1 q
  ⟨ab.1, plates, ab.2.1, q, hz.2, env.actionDown⟩

/-- Body of the expiry sweep: an expired entry is dropped, reverting its
tile only if the tile still holds the platform symbol; a live entry is
kept. -/
def expireStep (now : ℚ) (acc : Level × List TempPlatform) (tp : TempPlatform) :
    Level × List TempPlatform :=
  if now ≥ tp.expiresAt then
    (if tileAt acc.1 tp.tx tp.ty = 'X' then setTile acc.1 tp.tx tp.ty '.' else acc.1,
     acc.2)
  else (acc.1, acc.2 ++ [tp])

/-- The expiry sweep at the top of the main loop. -/
def expireTemps (now : ℚ) (level : Level) (temps : List TempPlatform) :
    Level × List TempPlatform :=
  temps.foldl (expireStep now) (level, [])

/-- The count of actors whose feet sample point is over a plate tile
(the `onPlates` loop of `updateDoorOpen`). -/
def onPlatesCount (level : Level) (players : List Player) : Nat :=
  (players.filter fun p =>
    isPlate (tileCharAt level p.pos.x (p.pos.y + p.h / 2 + 1))).length

/-- `updateDoorOpen(level, players)`. -/
def updateDoorOpen (level : Level) (players : List Player) : Level :=
  { level with doorOpen := onPlatesCount level players ≥ 2 }

/-- The whole mutable simulation state owned by the component. -/
structure SimState where
  level : Level
  players : List Player
  plates : List PlateState
  temps : List TempPlatform
  prevAction : List (Nat × Bool)
  paused : Bool
  won : Bool
  deaths : Nat
  lastTime : ℚ

/-- Lookup in the `prevActionDownRef` record. -/
def getPrevA (l : List (Nat × Bool)) (id : Nat) : Bool :=
  ((l.find? fun e => e.1 = id).map Prod.snd).getD false

/-- Update in the `prevActionDownRef` record. -/
def setPrevA (l : List (Nat × Bool)) (id : Nat) (b : Bool) : List (Nat × Bool) :=
  if l.any fun e => e.1 = id then
    l.map fun e => if e.1 = id then (e.1, b) else e
  else l ++ [(id, b)]

/-- Accumulator for the per-player fold inside the loop. -/
structure LoopAcc where
  level : Level
  players : List Player
  plates : List PlateState
  temps : List TempPlatform
  prevA : List (Nat × Bool)
  deaths : Nat

/-- Body of the per-actor loop `for (const p of playersRef.current)
updatePlayer(level, p, dt)`. -/
def playersStep (exits : Nat → List Vec2) (envOf : Nat → Env) (now dt : ℚ)
    (acc : LoopAcc) (p : Player) : LoopAcc :=
  let r := updatePlayer (exits p.id) (envOf p.id) now dt acc.level acc.plates
    acc.temps (getPrevA acc.prevA p.id) p acc.deaths
  { level := r.level
    players := acc.players ++ [r.player]
    plates := r.plates
    temps := r.temps
    prevA := setPrevA acc.prevA p.id r.prevAction
    deaths := r.deaths }

/-- One invocation of `loop(t)`: frame-time clamping, the pause/won gate,
platform expiry, the door recompute, all four actor updates in order, and
the win predicate (rendering is omitted).  `exits` is the exit map produced
once by `findSpawnsAndExits`; `envOf` supplies each actor's frame input;
`now` is the wall clock sampled by `performance.now()`. -/
def loopStep (exits : Nat → List Vec2) (envOf : Nat → Env) (now t : ℚ)
    (s : SimState) : SimState :=
  let dt := clamp ((t - s.lastTime) / 1000) 0 (1 / 30)
  let s := { s with lastTime := t }
  if s.paused ∨ s.won then s
  else
    let ex := expireTemps now s.level s.temps
    let level := updateDoorOpen ex.1 s.players
    let acc := s.players.foldl (playersStep exits envOf now dt)
      { level := level, players := [], plates := s.plates, temps := ex.2,
        prevA := s.prevAction, deaths := s.deaths }
    let allPlayersAtGates := acc.players.all (·.exitReached)
    let allPlatesPressed := acc.plates.all (·.pressed)
    let winNow := allPlayersAtGates && allPlatesPressed
    { level := acc.level
      players := acc.players
      plates := acc.plates
      temps := acc.temps
      prevAction := acc.prevA
      paused := if winNow then true else s.paused
      won := if winNow then true else s.won
      deaths := acc.deaths
      lastTime := s.lastTime }

/-- Derived classification: a tile is neutral for an actor when it is
neither liquid nor hazardous for that actor. -/
def neutralFor (ch : Char) (playerId : Nat) : Bool :=
  !isLiquidForPlayer ch playerId && !isHazardFor ch playerId

/-- Which modal dialog an open/close event belongs to. -/
inductive Which
  | settings
  | help
deriving DecidableEq

/-- The component state touched by `handleModalOpenChange`:
`modalCountRef`, `pausedBeforeModalRef`, the `paused` flag and the two
dialog-visibility flags. -/
structure ModalState where
  modalCount : Int
  pausedBeforeModal : Bool
  paused : Bool
  showSettings : Bool
  showHelp : Bool
deriving DecidableEq

/-- `handleModalOpenChange(next, which)`.  The source memoizes this callback
with `useCallback(..., [])` (the exhaustive-deps lint is suppressed), so the
`paused` read in its body is the binding captured by the first render — the
mount value of the `paused` state, which is `false` — and never the live
pause flag.  `capturedPaused` is that frozen value; the ref reads/writes and
the state setters are live. -/
def handleModalOpenChange (capturedPaused : Bool) (next : Bool) (which : Which)
    (s : ModalState) : ModalState :=
  let prevCount := s.modalCount
  let nextCount := prevCount + (if next then 1 else -1)
  let s := { s with modalCount := nextCount }
  let s :=
    if next ∧ prevCount = 0 then
      { s with pausedBeforeModal := capturedPaused, paused := true }
    else s
  let s :=
    if ¬next ∧ nextCount = 0 then { s with paused := s.pausedBeforeModal }
    else s
  match which with
  | .settings => { s with showSettings := next }
  | .help => { s with showHelp := next }

/-- Whether a dialog is currently open in the component state. -/
def shownFlag (s : ModalState) : Which → Bool
  | .settings => s.showSettings
  | .help => s.showHelp

/-- One dialog open/close event.  The dialog fires `onOpenChange` only when
its visibility actually changes, so an event repeating the current
visibility is rejected (`none`). -/
def modalStep (cp : Bool) (s : ModalState) (ev : Bool × Which) : Option ModalState :=
  if ev.1 = shownFlag s ev.2 then none
  else some (handleModalOpenChange cp ev.1 ev.2 s)

/-- Running an interleaving of dialog open/close events through the
memoized callback with captured pause value `cp`. -/
def runModal (cp : Bool) : ModalState → List (Bool × Which) → Option ModalState
  | s, [] => some s
  | s, ev :: rest =>
    match modalStep cp s ev with
    | none => none
    | some s' => runModal cp s' rest

/-- Number of currently open pause-requesting dialogs. -/
def openModals (s : ModalState) : Int :=
  (if s.showSettings then 1 else 0) + (if s.showHelp then 1 else 0)

/-- Inductive invariant of the modal pause machinery after the first dialog
has opened, relative to the captured pause value `cp` frozen into the
memoized callback: the count mirrors the open dialogs, the saved pre-modal
value is the captured one, and whenever the count is back at zero the
paused flag equals the captured value. -/
def ModalPost (cp : Bool) (s : ModalState) : Prop :=
  s.modalCount = openModals s ∧
  s.pausedBeforeModal = cp ∧
  (s.modalCount = 0 → s.paused = cp)

/-- Overlap of a player with one of its own designated exit rectangles
(the predicate computed by the exit check at the end of `updatePlayer`). -/
def overlapsOwnExit (exits : List Vec2) (ts : ℚ) (p : Player) : Bool :=
  exits.any fun ex => rectIntersect (playerRect p) ⟨ex.x, ex.y, ts, ts⟩

/-- Player fields that identify the actor and its fixed geometry; no frame
phase modifies them. -/
def PreservedPre (q p : Player) : Prop :=
  q.id = p.id ∧ q.spawn = p.spawn ∧ q.w = p.w ∧ q.h = p.h ∧ q.maxAirJumps = p.maxAirJumps

/-- Player fields that the phases after the hazard check leave untouched. -/
def PreservedPost (q p : Player) : Prop :=
  q.pos = p.pos ∧ q.vel = p.vel ∧ q.airJumpsLeft = p.airJumpsLeft ∧
  q.isDashing = p.isDashing ∧ q.dashUntil = p.dashUntil ∧ q.alive = p.alive ∧
  q.jumpLock = p.jumpLock

/-- Level metadata (dimensions, cell size, door flag) shared by two
levels. -/
def sameMeta (a b : Level) : Prop :=
  a.w = b.w ∧ a.h = b.h ∧ a.tileSize = b.tileSize ∧ a.doorOpen = b.doorOpen

/-- Well-formed level: the recorded dimensions match the tile grid. -/
def WF (lv : Level) : Prop :=
  lv.h = lv.tiles.length ∧ ∀ row ∈ lv.tiles, lv.w = row.length

/-- The immutable part of a level: dimensions and cell size. -/
def shape (lv : Level) : Int × Int × ℚ := (lv.w, lv.h, lv.tileSize)

/-- Whether a tile coordinate lies inside the grid bounds. -/
def inB (lv : Level) (tx ty : Int) : Prop :=
  0 ≤ tx ∧ tx < lv.w ∧ 0 ≤ ty ∧ ty < lv.h

instance (lv : Level) (tx ty : Int) : Decidable (inB lv tx ty) := by
  unfold inB; infer_instance

/-- A tiny well-formed level used by the witnesses: a 3x3 grid with one
empty centre cell. -/
def lvWit : Level :=
  ⟨[['#', '#', '#'], ['#', '.', '#'], ['#', '#', '#']], 3, 3, 32, false⟩

/-- An input environment with no keys held and no double-taps. -/
def envWit : Env :=
  ⟨false, false, false, false, false, false, false, fun _ _ => (0, 0)⟩

/-- A concrete player used by the witnesses (jump-lock engaged). -/
def playerWit : Player :=
  ⟨1, ⟨48, 48⟩, ⟨48, 48⟩, ⟨0, 0⟩, 22, 28, false, true, true, false, 1, 0, 0,
    false, 0, 5, 7, 0⟩

/-- A concrete simulation state used by the witnesses. -/
def simWit : SimState :=
  ⟨lvWit, [], [], [], [], false, false, 0, 0⟩

/-- A 6x4 level with a poison-pool tile at tile coordinate (3, 1). -/
def lvHaz : Level :=
  ⟨[['#', '#', '#', '#', '#', '#'],
    ['#', '.', '.', '~', '.', '#'],
    ['#', '.', '.', '.', '.', '#'],
    ['#', '#', '#', '#', '#', '#']], 6, 4, 32, false⟩

/-- An input environment holding only the right key. -/
def envRight : Env :=
  ⟨false, true, false, false, false, false, false, fun _ _ => (0, 0)⟩

/-- Fire actor one step left of the poison pool, walking right. -/
def pA : Player :=
  ⟨1, ⟨48, 48⟩, ⟨94, 48⟩, ⟨0, 0⟩, 22, 28, false, false, true, false, 1, 0, 0,
    false, 0, 0, 0, 0⟩

/-- Fire actor standing on the poison-pool tile with jump-lock engaged. -/
def pB : Player :=
  ⟨1, ⟨48, 48⟩, ⟨112, 48⟩, ⟨0, 0⟩, 22, 28, false, true, true, false, 1, 0, 0,
    false, 0, 0, 0, 0⟩

instance : Inhabited TempPlatform := ⟨⟨0, 0, 0⟩⟩

/-- Ephemeral Platform Registry invariant: every entry's tile currently
holds the earth-platform symbol, and no two entries share a tile. -/
def EPRInv (level : Level) (temps : List TempPlatform) : Prop :=
  (∀ tp ∈ temps, tileAt level tp.tx tp.ty = 'X') ∧
  (temps.map fun tp => ((tp.tx, tp.ty) : Coord)).Nodup

/-- Test driver for successive Earth placements: runs `doEarthAction` once
per listed (player, timestamp) pair and reports whether every attempt
placed a platform. -/
def earthRun : Level → List TempPlatform → List (Player × ℚ) →
    Level × List TempPlatform × Bool
  | lv, tm, [] => (lv, tm, true)
  | lv, tm, c :: rest =>
    let r := doEarthAction lv tm c.1 c.2
    let r2 := earthRun r.1 r.2.1 rest
    (r2.1, r2.2.1, r.2.2 && r2.2.2)

/-- A flat 16x2 all-empty level for exercising Earth placements. -/
def lvEarth : Level :=
  ⟨[List.replicate 16 '.', List.replicate 16 '.'], 16, 2, 32, false⟩

/-- Earth actor standing at horizontal position `x` of `lvEarth`. -/
def pEk (x : ℚ) : Player :=
  ⟨3, ⟨16, 16⟩, ⟨x, 16⟩, ⟨0, 0⟩, 22, 28, true, false, true, false, 1, 0, 0,
    false, 0, 0, 0, 0⟩

/-- First of thirteen Earth placement calls (tile column 0). -/
def earthC0 : Player × ℚ := (pEk 16, 0)

/-- The middle eleven Earth placement calls (tile columns 1-11). -/
def earthMid : List (Player × ℚ) :=
  [(pEk 48, 0), (pEk 80, 0), (pEk 112, 0), (pEk 144, 0), (pEk 176, 0),
   (pEk 208, 0), (pEk 240, 0), (pEk 272, 0), (pEk 304, 0), (pEk 336, 0),
   (pEk 368, 0)]

/-- The thirteenth Earth placement call (tile column 12). -/
def earthLast : Player × ℚ := (pEk 400, 0)

/-- 8-neighbourhood adjacency: `n` is one of the eight neighbours of `c`. -/
def adj8 (c n : Coord) : Prop := (n.1 - c.1, n.2 - c.2) ∈ dirs8

/-- Dark-hole tiles reachable from the seed set through 8-connected chains
of dark-hole tiles of a fixed level. -/
inductive Reach (level : Level) (seeds : List Coord) : Coord → Prop
  | seed : ∀ c, c ∈ seeds → tileAt level c.1 c.2 = 'O' → Reach level seeds c
  | step : ∀ c n, Reach level seeds c → adj8 c n → tileAt level n.1 n.2 = 'O' →
      Reach level seeds n

/-- Loop invariant of the flood fill, relative to the level `orig` as it
was when the fill started: (1) only dark holes have been converted, and
only to water; (2) the queue is marked; (3) marked tiles are reachable;
(4) seeds are marked; (5) a converted tile is marked and so are its
dark-hole neighbours; (6) a marked dark-hole tile is either converted or
still queued. -/
def FloodInv (orig : Level) (seeds : List Coord) (lv : Level)
    (q seen : List Coord) : Prop :=
  (∀ tx ty : Int, tileAt lv tx ty = tileAt orig tx ty ∨
    (tileAt orig tx ty = 'O' ∧ tileAt lv tx ty = 'W')) ∧
  (∀ c ∈ q, c ∈ seen) ∧
  (∀ c ∈ seen, Reach orig seeds c) ∧
  (∀ s ∈ seeds, s ∈ seen) ∧
  (∀ c : Coord, tileAt orig c.1 c.2 = 'O' → tileAt lv c.1 c.2 = 'W' →
    (c ∈ seen ∧ ∀ d ∈ dirs8, tileAt orig (c.1 + d.1) (c.2 + d.2) = 'O' →
      (c.1 + d.1, c.2 + d.2) ∈ seen)) ∧
  (∀ c ∈ seen, tileAt orig c.1 c.2 = 'O' → (tileAt lv c.1 c.2 = 'W' ∨ c ∈ q))

/-- Level with two adjacent dark holes for the flood-fill witness. -/
def lvWat : Level :=
  ⟨[['#', '#', '#', '#', '#', '#'],
    ['#', '.', 'O', 'O', '.', '#'],
    ['#', '.', '.', '.', '.', '#'],
    ['#', '#', '#', '#', '#', '#']], 6, 4, 32, false⟩

/-- Water actor standing next to the dark holes of `lvWat`. -/
def pWat : Player :=
  ⟨2, ⟨48, 48⟩, ⟨48, 48⟩, ⟨0, 0⟩, 22, 28, false, false, true, false, 1, 0, 0,
    false, 0, 0, 0, 0⟩

/-- The reachable dark-hole region of `lvWat`. -/
def RWat : Finset Coord := {((2 : Int), (1 : Int)), ((3 : Int), (1 : Int))}

theorem getD_set (l : List Char) (i j : Nat) (a d : Char) :
    (l.set i a).getD j d = if i = j ∧ j < l.length then a else l.getD j d := by
  rw [List.getD_eq_getElem?_getD, List.getElem?_set, List.getD_eq_getElem?_getD]
  by_cases hij : i = j
  · subst hij
    by_cases hi : i < l.length
    · simp [hi]
    · simp [hi, List.getElem?_eq_none (by omega : l.length ≤ i)]
  · simp [hij]

theorem getD_set_row (l : List (List Char)) (i j : Nat) (a d : List Char) :
    (l.set i a).getD j d = if i = j ∧ j < l.length then a else l.getD j d := by
  rw [List.getD_eq_getElem?_getD, List.getElem?_set, List.getD_eq_getElem?_getD]
  by_cases hij : i = j
  · subst hij
    by_cases hi : i < l.length
    · simp [hi]
    · simp [hi, List.getElem?_eq_none (by omega : l.length ≤ i)]
  · simp [hij]

theorem setTile_shape (lv : Level) (tx ty : Int) (ch : Char) :
    shape (setTile lv tx ty ch) = shape lv := by
  unfold setTile; split <;> rfl

theorem setTile_doorOpen (lv : Level) (tx ty : Int) (ch : Char) :
    (setTile lv tx ty ch).doorOpen = lv.doorOpen := by
  unfold setTile; split <;> rfl

theorem setTile_w (lv : Level) (tx ty : Int) (ch : Char) :
    (setTile lv tx ty ch).w = lv.w := by
  unfold setTile; split <;> rfl

theorem setTile_h (lv : Level) (tx ty : Int) (ch : Char) :
    (setTile lv tx ty ch).h = lv.h := by
  unfold setTile; split <;> rfl

theorem setTile_tileSize (lv : Level) (tx ty : Int) (ch : Char) :
    (setTile lv tx ty ch).tileSize = lv.tileSize := by
  unfold setTile; split <;> rfl

theorem WF_setTile (lv : Level) (tx ty : Int) (ch : Char) (hwf : WF lv) :
    WF (setTile lv tx ty ch) := by
  obtain ⟨hh, hw⟩ := hwf
  unfold setTile
  split
  · exact ⟨hh, hw⟩
  · refine ⟨by simpa using hh, fun row hrow => ?_⟩
    rcases List.mem_or_eq_of_mem_set hrow with h | h
    · exact hw row h
    · subst h
      rw [List.length_set]
      by_cases hlen : ty.toNat < lv.tiles.length
      · refine hw _ ?_
        rw [List.getD_eq_getElem _ _ hlen]
        exact List.getElem_mem hlen
      · rename_i hoob
        push_neg at hoob
        omega

/-- A write never changes any other coordinate. -/
theorem tileAt_setTile_ne (lv : Level) (tx ty : Int) (ch : Char) (tx' ty' : Int)
    (hne : tx' ≠ tx ∨ ty' ≠ ty) :
    tileAt (setTile lv tx ty ch) tx' ty' = tileAt lv tx' ty' := by
  unfold setTile
  split
  · rfl
  · rename_i hw
    push_neg at hw
    unfold tileAt
    simp only
    split
    · rfl
    · rename_i hr
      push_neg at hr
      rw [getD_set_row]
      by_cases hy : ty' = ty
      · subst hy
        have htx : tx' ≠ tx := by tauto
        split
        · rw [getD_set, if_neg]
          rintro ⟨heq, -⟩
          exact htx (by omega)
        · rfl
      · rw [if_neg]
        rintro ⟨heq, -⟩
        exact hy (by omega)

/-- An in-bounds write to a well-formed level lands. -/
theorem tileAt_setTile_self (lv : Level) (tx ty : Int) (ch : Char) (hwf : WF lv)
    (h0x : 0 ≤ tx) (hx : tx < lv.w) (h0y : 0 ≤ ty) (hy : ty < lv.h) :
    tileAt (setTile lv tx ty ch) tx ty = ch := by
  obtain ⟨hh, hrow⟩ := hwf
  unfold setTile
  rw [if_neg (by omega)]
  unfold tileAt
  simp only
  rw [if_neg (by omega)]
  have hlen : ty.toNat < lv.tiles.length := by omega
  rw [getD_set_row, if_pos ⟨rfl, hlen⟩, getD_set, if_pos]
  refine ⟨rfl, ?_⟩
  have hmem : lv.tiles.getD ty.toNat [] ∈ lv.tiles := by
    rw [List.getD_eq_getElem _ _ hlen]
    exact List.getElem_mem hlen
  have := hrow _ hmem
  omega

/-- A write either lands or leaves the queried tile unchanged. -/
theorem tileAt_setTile_or (lv : Level) (tx ty : Int) (ch : Char) (tx' ty' : Int) :
    tileAt (setTile lv tx ty ch) tx' ty' = ch ∨
    tileAt (setTile lv tx ty ch) tx' ty' = tileAt lv tx' ty' := by
  by_cases hne : tx' ≠ tx ∨ ty' ≠ ty
  · exact Or.inr (tileAt_setTile_ne lv tx ty ch tx' ty' hne)
  · push_neg at hne
    obtain ⟨rfl, rfl⟩ := hne
    unfold setTile
    split
    · exact Or.inr rfl
    · rename_i hw
      push_neg at hw
      unfold tileAt
      simp only
      rw [if_neg (by omega), if_neg (by omega)]
      rw [getD_set_row]
      split
      · rw [getD_set]
        split
        · exact Or.inl rfl
        · exact Or.inr rfl
      · exact Or.inr rfl

theorem sameMeta_refl (a : Level) : sameMeta a a := ⟨rfl, rfl, rfl, rfl⟩

theorem sameMeta_trans {a b c : Level} (h1 : sameMeta a b) (h2 : sameMeta b c) :
    sameMeta a c := by
  obtain ⟨h1a, h1b, h1c, h1d⟩ := h1
  obtain ⟨h2a, h2b, h2c, h2d⟩ := h2
  exact ⟨h1a.trans h2a, h1b.trans h2b, h1c.trans h2c, h1d.trans h2d⟩

theorem sameMeta_setTile (lv : Level) (tx ty : Int) (ch : Char) :
    sameMeta (setTile lv tx ty ch) lv := by
  unfold setTile; split <;> exact ⟨rfl, rfl, rfl, rfl⟩

theorem sameMeta_foldl {α : Type} (f : Level → α → Level)
    (hf : ∀ lv a, sameMeta (f lv a) lv) :
    ∀ (l : List α) (lv : Level), sameMeta (l.foldl f lv) lv := by
  intro l
  induction l with
  | nil => intro lv; exact sameMeta_refl lv
  | cons a rest ih => intro lv; exact sameMeta_trans (ih (f lv a)) (hf lv a)

theorem WF_sameMeta {a b : Level} (hm : sameMeta a b) (hab : a.tiles = b.tiles)
    (hwf : WF b) : WF a := by
  obtain ⟨hw, hh, -, -⟩ := hm
  obtain ⟨h1, h2⟩ := hwf
  exact ⟨by rw [hh, hab, h1], fun row hr => by rw [hw]; exact h2 row (hab ▸ hr)⟩

theorem WF_foldl {α : Type} (f : Level → α → Level)
    (hf : ∀ lv a, WF lv → WF (f lv a)) :
    ∀ (l : List α) (lv : Level), WF lv → WF (l.foldl f lv) := by
  intro l
  induction l with
  | nil => intro lv h; exact h
  | cons a rest ih => intro lv h; exact ih (f lv a) (hf lv a h)

theorem sameMeta_fireBreakAt (lv : Level) (c : Coord) :
    sameMeta (fireBreakAt lv c) lv := by
  unfold fireBreakAt
  dsimp only
  split
  · exact sameMeta_setTile lv c.1 c.2 '.'
  · exact sameMeta_refl lv

theorem WF_fireBreakAt (lv : Level) (c : Coord) (h : WF lv) : WF (fireBreakAt lv c) := by
  unfold fireBreakAt
  dsimp only
  split
  · exact WF_setTile lv c.1 c.2 '.' h
  · exact h

theorem sameMeta_doFireAction (lv : Level) (tm : List TempPlatform) (p : Player) :
    sameMeta (doFireAction lv tm p).1 lv :=
  sameMeta_foldl fireBreakAt sameMeta_fireBreakAt _ lv

theorem WF_doFireAction (lv : Level) (tm : List TempPlatform) (p : Player)
    (h : WF lv) : WF (doFireAction lv tm p).1 :=
  WF_foldl fireBreakAt WF_fireBreakAt _ lv h

theorem sameMeta_floodLoop (maxFill : Nat) :
    ∀ (lv : Level) (q seen : List Coord) (count : Nat),
      sameMeta (floodLoop maxFill lv q seen count).1 lv := by
  intro lv q seen count
  induction lv, q, seen, count using floodLoop.induct maxFill with
  | case1 lv seen count => rw [floodLoop]; exact sameMeta_refl lv
  | case2 lv c rest seen count hlt hO ih =>
    rw [floodLoop]
    simp only [dif_pos hlt, if_pos hO]
    exact ih
  | case3 lv c rest seen count hlt hO level' step ih =>
    rw [floodLoop]
    simp only [dif_pos hlt, if_neg hO]
    exact sameMeta_trans ih (sameMeta_setTile lv c.1 c.2 'W')
  | case4 lv c rest seen count hge =>
    rw [floodLoop]
    simp only [dif_neg hge]
    exact sameMeta_refl lv

theorem WF_floodLoop (maxFill : Nat) :
    ∀ (lv : Level) (q seen : List Coord) (count : Nat), WF lv →
      WF (floodLoop maxFill lv q seen count).1 := by
  intro lv q seen count
  induction lv, q, seen, count using floodLoop.induct maxFill with
  | case1 lv seen count => intro h; rw [floodLoop]; exact h
  | case2 lv c rest seen count hlt hO ih =>
    intro h
    rw [floodLoop]
    simp only [dif_pos hlt, if_pos hO]
    exact ih h
  | case3 lv c rest seen count hlt hO level' step ih =>
    intro h
    rw [floodLoop]
    simp only [dif_pos hlt, if_neg hO]
    exact ih (WF_setTile lv c.1 c.2 'W' h)
  | case4 lv c rest seen count hge =>
    intro h
    rw [floodLoop]
    simp only [dif_neg hge]
    exact h

theorem sameMeta_doWaterAction (lv : Level) (p : Player) :
    sameMeta (doWaterAction lv p) lv := by
  unfold doWaterAction
  dsimp only
  split
  · exact sameMeta_refl lv
  · exact sameMeta_floodLoop 2000 lv _ _ 0

theorem WF_doWaterAction (lv : Level) (p : Player) (h : WF lv) :
    WF (doWaterAction lv p) := by
  unfold doWaterAction
  dsimp only
  split
  · exact h
  · exact WF_floodLoop 2000 lv _ _ 0 h

theorem sameMeta_doEarthAction (lv : Level) (tm : List TempPlatform) (p : Player)
    (now : ℚ) : sameMeta (doEarthAction lv tm p now).1 lv := by
  unfold doEarthAction
  dsimp only
  split
  · exact sameMeta_refl lv
  · split
    · split
      · exact sameMeta_setTile lv _ _ 'X'
      · exact sameMeta_trans (sameMeta_setTile _ _ _ '.') (sameMeta_setTile lv _ _ 'X')
    · exact sameMeta_setTile lv _ _ 'X'

theorem WF_doEarthAction (lv : Level) (tm : List TempPlatform) (p : Player)
    (now : ℚ) (h : WF lv) : WF (doEarthAction lv tm p now).1 := by
  unfold doEarthAction
  dsimp only
  split
  · exact h
  · split
    · split
      · exact WF_setTile lv _ _ 'X' h
      · exact WF_setTile _ _ _ '.' (WF_setTile lv _ _ 'X' h)
    · exact WF_setTile lv _ _ 'X' h

theorem sameMeta_abilityPhase (j : Bool) (now : ℚ) (lv : Level)
    (tm : List TempPlatform) (p : Player) :
    sameMeta (abilityPhase j now lv tm p).1 lv := by
  unfold abilityPhase
  dsimp only
  split_ifs <;>
    first
      | exact sameMeta_refl lv
      | exact sameMeta_doFireAction lv tm p
      | exact sameMeta_doWaterAction lv p
      | exact sameMeta_doEarthAction lv tm p now

theorem WF_abilityPhase (j : Bool) (now : ℚ) (lv : Level)
    (tm : List TempPlatform) (p : Player) (h : WF lv) :
    WF (abilityPhase j now lv tm p).1 := by
  unfold abilityPhase
  dsimp only
  split_ifs <;>
    first
      | exact h
      | exact WF_doFireAction lv tm p h
      | exact WF_doWaterAction lv p h
      | exact WF_doEarthAction lv tm p now h

theorem sameMeta_expireStep (now : ℚ) (acc : Level × List TempPlatform)
    (tp : TempPlatform) : sameMeta (expireStep now acc tp).1 acc.1 := by
  unfold expireStep
  split_ifs <;> first | exact sameMeta_setTile _ _ _ _ | exact sameMeta_refl _

theorem PreservedPre_refl (p : Player) : PreservedPre p p := ⟨rfl, rfl, rfl, rfl, rfl⟩

theorem PreservedPre_trans {a b c : Player} (h1 : PreservedPre a b)
    (h2 : PreservedPre b c) : PreservedPre a c := by
  obtain ⟨x1, x2, x3, x4, x5⟩ := h1
  obtain ⟨y1, y2, y3, y4, y5⟩ := h2
  exact ⟨x1.trans y1, x2.trans y2, x3.trans y3, x4.trans y4, x5.trans y5⟩

theorem tryStartWindDash_pre (env : Env) (now : ℚ) (p : Player) :
    PreservedPre (tryStartWindDash env now p) p := by
  unfold PreservedPre tryStartWindDash
  dsimp only
  repeat' split
  all_goals exact ⟨rfl, rfl, rfl, rfl, rfl⟩

theorem windPhase_pre (env : Env) (now : ℚ) (p : Player) :
    PreservedPre (windPhase env now p) p := by
  unfold windPhase
  dsimp only
  repeat' split
  all_goals
    first
      | exact PreservedPre_refl p
      | exact PreservedPre_trans (tryStartWindDash_pre _ _ _) ⟨rfl, rfl, rfl, rfl, rfl⟩
      | exact ⟨rfl, rfl, rfl, rfl, rfl⟩

theorem horizPhase_pre (env : Env) (inLiquid : Bool) (p : Player) :
    PreservedPre (horizPhase env inLiquid p) p := by
  unfold PreservedPre horizPhase
  dsimp only
  repeat' split
  all_goals exact ⟨rfl, rfl, rfl, rfl, rfl⟩

theorem vertPhase_pre (env : Env) (inLiquid : Bool) (dt : ℚ) (p : Player) :
    PreservedPre (vertPhase env inLiquid dt p) p := by
  unfold PreservedPre vertPhase
  dsimp only
  repeat' split
  all_goals exact ⟨rfl, rfl, rfl, rfl, rfl⟩

theorem jumpPhase_pre (env : Env) (inLiquid : Bool) (p : Player) :
    PreservedPre (jumpPhase env inLiquid p) p := by
  unfold PreservedPre jumpPhase
  dsimp only
  repeat' split
  all_goals exact ⟨rfl, rfl, rfl, rfl, rfl⟩

theorem moveAndCollide_pre (lv : Level) (p : Player) (dt : ℚ) :
    PreservedPre (moveAndCollide lv p dt) p := by
  unfold PreservedPre moveAndCollide
  dsimp only
  exact ⟨rfl, rfl, rfl, rfl, rfl⟩

theorem hazardPhase_pre (lv : Level) (cc : Char) (p : Player) (d : Nat) :
    PreservedPre (hazardPhase lv cc p d).1 p := by
  unfold PreservedPre hazardPhase
  dsimp only
  split
  all_goals exact ⟨rfl, rfl, rfl, rfl, rfl⟩

theorem stepFxPhase_eq (inLiquid : Bool) (now : ℚ) (p : Player) :
    ∃ c, stepFxPhase inLiquid now p = { p with nextStepFxTime := c } := by
  unfold stepFxPhase
  split
  · exact ⟨now + 90, rfl⟩
  · exact ⟨p.nextStepFxTime, rfl⟩

theorem abilityPhase_player (j : Bool) (now : ℚ) (lv : Level)
    (tm : List TempPlatform) (p : Player) :
    (abilityPhase j now lv tm p).2.2 = p ∨
    (abilityPhase j now lv tm p).2.2 =
      { p with abilityCooldownUntil := now + EARTH_COOLDOWN * 1000 } := by
  unfold abilityPhase
  dsimp only
  repeat' split
  all_goals first | exact Or.inl rfl | exact Or.inr rfl

theorem exitPhase_eq (e : List Vec2) (lv : Level) (p : Player) :
    exitPhase e lv p = { p with exitReached := overlapsOwnExit e lv.tileSize p } := by
  unfold exitPhase
  dsimp only
  split
  · rename_i h
    have hov : overlapsOwnExit e lv.tileSize p = true := h
    rw [hov]
  · rename_i h
    have hov : overlapsOwnExit e lv.tileSize p = false := by
      rw [← Bool.not_eq_true]; exact h
    rw [hov]

theorem updatePlayer_level_meta (exits : List Vec2) (env : Env) (now dt : ℚ)
    (lv : Level) (plates : List PlateState) (temps : List TempPlatform)
    (prevA : Bool) (p : Player) (deaths : Nat) :
    sameMeta (updatePlayer exits env now dt lv plates temps prevA p deaths).level lv := by
  unfold updatePlayer
  dsimp only
  exact sameMeta_abilityPhase _ _ _ _ _

theorem updatePlayer_level_WF (exits : List Vec2) (env : Env) (now dt : ℚ)
    (lv : Level) (plates : List PlateState) (temps : List TempPlatform)
    (prevA : Bool) (p : Player) (deaths : Nat) (h : WF lv) :
    WF (updatePlayer exits env now dt lv plates temps prevA p deaths).level := by
  unfold updatePlayer
  dsimp only
  exact WF_abilityPhase _ _ _ _ _ h

theorem tailPhases_pre (j : Bool) (now : ℚ) (lv : Level) (tm : List TempPlatform)
    (e : List Vec2) (il : Bool) (q : Player) :
    PreservedPre
      (exitPhase e (abilityPhase j now lv tm q).1
        (stepFxPhase il now (abilityPhase j now lv tm q).2.2)) q := by
  obtain hab | hab := abilityPhase_player j now lv tm q <;>
    obtain ⟨c, hfx⟩ := stepFxPhase_eq il now (abilityPhase j now lv tm q).2.2 <;>
    rw [exitPhase_eq, hfx, hab] <;>
    exact ⟨rfl, rfl, rfl, rfl, rfl⟩

theorem preMove_pre (env : Env) (now dt : ℚ) (lv : Level) (p : Player) :
    PreservedPre (preMove env now dt lv p) p := by
  unfold preMove
  dsimp only
  exact PreservedPre_trans (moveAndCollide_pre _ _ _)
    (PreservedPre_trans (jumpPhase_pre _ _ _)
      (PreservedPre_trans (vertPhase_pre _ _ _ _)
        (PreservedPre_trans (horizPhase_pre _ _ _) (windPhase_pre _ _ _))))

theorem updatePlayer_pre (exits : List Vec2) (env : Env) (now dt : ℚ)
    (lv : Level) (plates : List PlateState) (temps : List TempPlatform)
    (prevA : Bool) (p : Player) (deaths : Nat) :
    PreservedPre (updatePlayer exits env now dt lv plates temps prevA p deaths).player p := by
  unfold updatePlayer
  dsimp only
  exact PreservedPre_trans (tailPhases_pre _ _ _ _ _ _ _)
    (PreservedPre_trans (hazardPhase_pre _ _ _ _) (preMove_pre _ _ _ _ _))

theorem updatePlayer_exitReached (exits : List Vec2) (env : Env) (now dt : ℚ)
    (lv : Level) (plates : List PlateState) (temps : List TempPlatform)
    (prevA : Bool) (p : Player) (deaths : Nat) :
    (updatePlayer exits env now dt lv plates temps prevA p deaths).player.exitReached =
      overlapsOwnExit exits
        (updatePlayer exits env now dt lv plates temps prevA p deaths).level.tileSize
        (updatePlayer exits env now dt lv plates temps prevA p deaths).player := by
  unfold updatePlayer
  dsimp only
  rw [exitPhase_eq]
  rfl

theorem playersStep_level_meta (exits : Nat → List Vec2) (envOf : Nat → Env)
    (now dt : ℚ) (acc : LoopAcc) (p : Player) :
    sameMeta (playersStep exits envOf now dt acc p).level acc.level := by
  unfold playersStep
  dsimp only
  exact updatePlayer_level_meta _ _ _ _ _ _ _ _ _ _

theorem playersFold_meta (exits : Nat → List Vec2) (envOf : Nat → Env) (now dt : ℚ) :
    ∀ (ps : List Player) (acc : LoopAcc),
      sameMeta (ps.foldl (playersStep exits envOf now dt) acc).level acc.level := by
  intro ps
  induction ps with
  | nil => intro acc; exact sameMeta_refl _
  | cons p rest ih =>
    intro acc
    exact sameMeta_trans (ih _) (playersStep_level_meta exits envOf now dt acc p)

theorem playersFold_exitReached (exits : Nat → List Vec2) (envOf : Nat → Env)
    (now dt : ℚ) :
    ∀ (ps : List Player) (acc : LoopAcc),
      (∀ q ∈ acc.players, q.exitReached = overlapsOwnExit (exits q.id) acc.level.tileSize q) →
      ∀ q ∈ (ps.foldl (playersStep exits envOf now dt) acc).players,
        q.exitReached =
          overlapsOwnExit (exits q.id)
            (ps.foldl (playersStep exits envOf now dt) acc).level.tileSize q := by
  intro ps
  induction ps with
  | nil => intro acc h; exact h
  | cons p rest ih =>
    intro acc h
    refine ih (playersStep exits envOf now dt acc p) ?_
    intro q hq
    have hts : (playersStep exits envOf now dt acc p).level.tileSize = acc.level.tileSize :=
      (playersStep_level_meta exits envOf now dt acc p).2.2.1
    rw [hts]
    have hmem : q ∈ acc.players ∨
        q = (updatePlayer (exits p.id) (envOf p.id) now dt acc.level acc.plates
          acc.temps (getPrevA acc.prevA p.id) p acc.deaths).player := by
      have : q ∈ acc.players ++
          [(updatePlayer (exits p.id) (envOf p.id) now dt acc.level acc.plates
            acc.temps (getPrevA acc.prevA p.id) p acc.deaths).player] := hq
      simpa using this
    rcases hmem with hold | hnew
    · exact h q hold
    · subst hnew
      have hid : (updatePlayer (exits p.id) (envOf p.id) now dt acc.level acc.plates
          acc.temps (getPrevA acc.prevA p.id) p acc.deaths).player.id = p.id :=
        (updatePlayer_pre _ _ _ _ _ _ _ _ _ _).1
      have hts' : (updatePlayer (exits p.id) (envOf p.id) now dt acc.level acc.plates
          acc.temps (getPrevA acc.prevA p.id) p acc.deaths).level.tileSize =
          acc.level.tileSize :=
        (updatePlayer_level_meta _ _ _ _ _ _ _ _ _ _).2.2.1
      rw [hid, ← hts']
      exact updatePlayer_exitReached _ _ _ _ _ _ _ _ _ _

theorem expireStep_tile (now : ℚ) (acc : Level × List TempPlatform)
    (tp : TempPlatform) (tx ty : Int) :
    tileAt (expireStep now acc tp).1 tx ty = tileAt acc.1 tx ty ∨
    (tileAt (expireStep now acc tp).1 tx ty = '.' ∧ tileAt acc.1 tx ty = 'X') := by
  unfold expireStep
  split_ifs with h1 h2
  · rcases tileAt_setTile_or acc.1 tp.tx tp.ty '.' tx ty with hset | hset
    · by_cases hold : tileAt acc.1 tx ty = '.'
      · exact Or.inl (hset.trans hold.symm)
      · refine Or.inr ⟨hset, ?_⟩
        by_cases hco : tx = tp.tx ∧ ty = tp.ty
        · obtain ⟨rfl, rfl⟩ := hco
          exact h2
        · rw [tileAt_setTile_ne acc.1 tp.tx tp.ty '.' tx ty (by tauto)] at hset
          exact absurd hset hold
    · exact Or.inl hset
  · exact Or.inl rfl
  · exact Or.inl rfl

theorem expireFold_tile (now : ℚ) :
    ∀ (temps : List TempPlatform) (acc : Level × List TempPlatform) (tx ty : Int),
      tileAt (temps.foldl (expireStep now) acc).1 tx ty = tileAt acc.1 tx ty ∨
      (tileAt (temps.foldl (expireStep now) acc).1 tx ty = '.' ∧
       tileAt acc.1 tx ty = 'X') := by
  intro temps
  induction temps with
  | nil => intro acc tx ty; exact Or.inl rfl
  | cons tp rest ih =>
    intro acc tx ty
    rcases ih (expireStep now acc tp) tx ty with hrest | ⟨hdot, hX⟩
    · rcases expireStep_tile now acc tp tx ty with hstep | ⟨hdot, hX⟩
      · exact Or.inl (hrest.trans hstep)
      · exact Or.inr ⟨hrest.trans hdot, hX⟩
    · rcases expireStep_tile now acc tp tx ty with hstep | ⟨hdot2, hX2⟩
      · exact Or.inr ⟨hdot, hstep ▸ hX⟩
      · exact absurd (hdot2.symm.trans hX) (by decide)

theorem sameMeta_expireTemps (now : ℚ) (lv : Level) (temps : List TempPlatform) :
    sameMeta (expireTemps now lv temps).1 lv := by
  unfold expireTemps
  have : ∀ (l : List TempPlatform) (acc : Level × List TempPlatform),
      sameMeta (l.foldl (expireStep now) acc).1 acc.1 := by
    intro l
    induction l with
    | nil => intro acc; exact sameMeta_refl _
    | cons tp rest ih =>
      intro acc
      exact sameMeta_trans (ih _) (sameMeta_expireStep now acc tp)
  exact this temps (lv, [])

theorem isPlate_expireTemps (now : ℚ) (lv : Level) (temps : List TempPlatform)
    (x y : ℚ) :
    isPlate (tileCharAt (expireTemps now lv temps).1 x y) = isPlate (tileCharAt lv x y) := by
  have hts : (expireTemps now lv temps).1.tileSize = lv.tileSize :=
    (sameMeta_expireTemps now lv temps).2.2.1
  unfold tileCharAt
  dsimp only
  rw [hts]
  rcases expireFold_tile now temps (lv, []) (worldToTile x y lv.tileSize).1
      (worldToTile x y lv.tileSize).2 with heq | ⟨hdot, hX⟩
  · unfold expireTemps
    rw [heq]
  · unfold expireTemps
    rw [hdot, hX]
    rfl

theorem onPlatesCount_expireTemps (now : ℚ) (lv : Level) (temps : List TempPlatform)
    (ps : List Player) :
    onPlatesCount (expireTemps now lv temps).1 ps = onPlatesCount lv ps := by
  unfold onPlatesCount
  congr 1
  refine List.filter_congr fun p _ => ?_
  rw [isPlate_expireTemps]

theorem updatePlayer_level_plates (exits : List Vec2) (env : Env) (now dt : ℚ)
    (lv : Level) (pl1 pl2 : List PlateState) (temps : List TempPlatform)
    (prevA : Bool) (p : Player) (deaths : Nat) :
    (updatePlayer exits env now dt lv pl1 temps prevA p deaths).level =
      (updatePlayer exits env now dt lv pl2 temps prevA p deaths).level := rfl

theorem updatePlayer_player_plates (exits : List Vec2) (env : Env) (now dt : ℚ)
    (lv : Level) (pl1 pl2 : List PlateState) (temps : List TempPlatform)
    (prevA : Bool) (p : Player) (deaths : Nat) :
    (updatePlayer exits env now dt lv pl1 temps prevA p deaths).player =
      (updatePlayer exits env now dt lv pl2 temps prevA p deaths).player := rfl

theorem updatePlayer_temps_plates (exits : List Vec2) (env : Env) (now dt : ℚ)
    (lv : Level) (pl1 pl2 : List PlateState) (temps : List TempPlatform)
    (prevA : Bool) (p : Player) (deaths : Nat) :
    (updatePlayer exits env now dt lv pl1 temps prevA p deaths).temps =
      (updatePlayer exits env now dt lv pl2 temps prevA p deaths).temps := rfl

theorem updatePlayer_deaths_plates (exits : List Vec2) (env : Env) (now dt : ℚ)
    (lv : Level) (pl1 pl2 : List PlateState) (temps : List TempPlatform)
    (prevA : Bool) (p : Player) (deaths : Nat) :
    (updatePlayer exits env now dt lv pl1 temps prevA p deaths).deaths =
      (updatePlayer exits env now dt lv pl2 temps prevA p deaths).deaths := rfl

/-- The level produced by the per-actor fold does not depend on the plate
map threaded through it. -/
theorem playersFold_level_plates (exits : Nat → List Vec2) (envOf : Nat → Env)
    (now dt : ℚ) :
    ∀ (ps : List Player) (acc1 acc2 : LoopAcc),
      acc1.level = acc2.level → acc1.players = acc2.players →
      acc1.temps = acc2.temps → acc1.prevA = acc2.prevA → acc1.deaths = acc2.deaths →
      (ps.foldl (playersStep exits envOf now dt) acc1).level =
        (ps.foldl (playersStep exits envOf now dt) acc2).level := by
  intro ps
  induction ps with
  | nil => intro acc1 acc2 h1 _ _ _ _; exact h1
  | cons p rest ih =>
    intro acc1 acc2 h1 h2 h3 h4 h5
    refine ih _ _ ?_ ?_ ?_ ?_ ?_ <;> unfold playersStep <;> dsimp only
    · rw [h1, h3, h4, h5]
      exact updatePlayer_level_plates _ _ _ _ _ _ _ _ _ _ _
    · rw [h1, h2, h3, h4, h5]
      exact congrArg (fun q => acc2.players ++ [q])
        (updatePlayer_player_plates _ _ _ _ _ _ _ _ _ _ _)
    · rw [h1, h3, h4, h5]
      exact updatePlayer_temps_plates _ _ _ _ _ _ _ _ _ _ _
    · rw [h1, h3, h4, h5]
      rfl
    · rw [h1, h3, h4, h5]
      exact updatePlayer_deaths_plates _ _ _ _ _ _ _ _ _ _ _
/-- C1: at the end of an unpaused, not-yet-won simulation step, the game
transitions to the won state if and only if every updated actor overlaps
one of its own designated exit rectangles and every pressure-plate record's
pressed flag is true; one unpressed plate, or one actor off its gate,
prevents the transition. -/
theorem win_iff_gates_and_plates (exits : Nat → List Vec2) (envOf : Nat → Env)
    (now t : ℚ) (s : SimState) (hp : s.paused = false) (hw : s.won = false) :
    ((loopStep exits envOf now t s).won = true ↔
      ((∀ q ∈ (loopStep exits envOf now t s).players,
          overlapsOwnExit (exits q.id) (loopStep exits envOf now t s).level.tileSize q = true) ∧
       (∀ st ∈ (loopStep exits envOf now t s).plates, st.pressed = true))) := by
  unfold loopStep
  dsimp only
  rw [hp, hw]
  rw [if_neg (by simp)]
  dsimp only
  have hpt := playersFold_exitReached exits envOf now
    (clamp ((t - s.lastTime) / 1000) 0 (1 / 30)) s.players
    { level := updateDoorOpen (expireTemps now s.level s.temps).1 s.players,
      players := [], plates := s.plates, temps := (expireTemps now s.level s.temps).2,
      prevA := s.prevAction, deaths := s.deaths }
    (by intro q hq; exact absurd hq (List.not_mem_nil q))
  constructor
  · intro hwin
    have hcond :
        (List.foldl (playersStep exits envOf now (clamp ((t - s.lastTime) / 1000) 0 (1 / 30)))
            { level := updateDoorOpen (expireTemps now s.level s.temps).1 s.players,
              players := [], plates := s.plates,
              temps := (expireTemps now s.level s.temps).2,
              prevA := s.prevAction, deaths := s.deaths } s.players).players.all
            (·.exitReached) = true ∧
        (List.foldl (playersStep exits envOf now (clamp ((t - s.lastTime) / 1000) 0 (1 / 30)))
            { level := updateDoorOpen (expireTemps now s.level s.temps).1 s.players,
              players := [], plates := s.plates,
              temps := (expireTemps now s.level s.temps).2,
              prevA := s.prevAction, deaths := s.deaths } s.players).plates.all
            (·.pressed) = true := by
      rw [← Bool.and_eq_true]
      by_contra hcon
      rw [Bool.not_eq_true] at hcon
      rw [hcon] at hwin
      simp at hwin
    obtain ⟨h1, h2⟩ := hcond
    rw [List.all_eq_true] at h1 h2
    refine ⟨fun q hq => ?_, fun st hst => ?_⟩
    · exact ((hpt q hq).symm.trans (by simpa using h1 q hq))
    · simpa using h2 st hst
  · rintro ⟨h1, h2⟩
    have hall1 :
        (List.foldl (playersStep exits envOf now (clamp ((t - s.lastTime) / 1000) 0 (1 / 30)))
            { level := updateDoorOpen (expireTemps now s.level s.temps).1 s.players,
              players := [], plates := s.plates,
              temps := (expireTemps now s.level s.temps).2,
              prevA := s.prevAction, deaths := s.deaths } s.players).players.all
            (·.exitReached) = true := by
      rw [List.all_eq_true]
      intro q hq
      have := (hpt q hq).trans (h1 q hq)
      simpa using this
    have hall2 :
        (List.foldl (playersStep exits envOf now (clamp ((t - s.lastTime) / 1000) 0 (1 / 30)))
            { level := updateDoorOpen (expireTemps now s.level s.temps).1 s.players,
              players := [], plates := s.plates,
              temps := (expireTemps now s.level s.temps).2,
              prevA := s.prevAction, deaths := s.deaths } s.players).plates.all
            (·.pressed) = true := by
      rw [List.all_eq_true]
      intro st hst
      simpa using h2 st hst
    rw [hall1, hall2]
    simp

/-- C3: every unpaused step recomputes the door flag, before any actor is
updated, to "at least two actors currently have their feet sample over a
plate tile"; the flag never depends on the latched plate-pressed records. -/
theorem doorOpen_recomputed_each_step (exits : Nat → List Vec2) (envOf : Nat → Env)
    (now t : ℚ) (s : SimState) (hp : s.paused = false) (hw : s.won = false) :
    ((loopStep exits envOf now t s).level.doorOpen =
      decide (onPlatesCount s.level s.players ≥ 2) ∧
     ∀ plates' : List PlateState,
       (loopStep exits envOf now t { s with plates := plates' }).level.doorOpen =
         (loopStep exits envOf now t s).level.doorOpen) := by
  constructor
  · unfold loopStep
    dsimp only
    rw [hp, hw]
    rw [if_neg (by simp)]
    dsimp only
    have hmeta := playersFold_meta exits envOf now
      (clamp ((t - s.lastTime) / 1000) 0 (1 / 30)) s.players
      { level := updateDoorOpen (expireTemps now s.level s.temps).1 s.players,
        players := [], plates := s.plates, temps := (expireTemps now s.level s.temps).2,
        prevA := s.prevAction, deaths := s.deaths }
    rw [hmeta.2.2.2]
    show decide (onPlatesCount (expireTemps now s.level s.temps).1 s.players ≥ 2) = _
    rw [onPlatesCount_expireTemps]
  · intro plates'
    unfold loopStep
    dsimp only
    rw [hp, hw]
    rw [if_neg (by simp : ¬(false = true ∨ false = true))]
    rw [if_neg (by simp : ¬(false = true ∨ false = true))]
    dsimp only
    exact congrArg Level.doorOpen
      (playersFold_level_plates exits envOf now _ s.players _ _ rfl rfl rfl rfl rfl)

theorem modalStep_inv {cp : Bool} {s s' : ModalState} {ev : Bool × Which}
    (hinv : ModalPost cp s) (hstep : modalStep cp s ev = some s') :
    ModalPost cp s' := by
  obtain ⟨hc, hb, hp⟩ := hinv
  obtain ⟨next, w⟩ := ev
  obtain ⟨mc, pb, pz, ss, sh⟩ := s
  simp only [modalStep, shownFlag] at hstep
  simp only [openModals] at hc
  cases w <;> cases next <;> cases ss <;> cases sh <;>
    simp only [reduceIte, Option.some.injEq, reduceCtorEq] at hstep hc <;>
    subst hstep <;>
    simp only [ModalPost, handleModalOpenChange, openModals] <;>
    split_ifs <;>
    dsimp only at * <;>
    simp_all

theorem modalStart {cp : Bool} {s s' : ModalState} {ev : Bool × Which}
    (hs : s.showSettings = false) (hh : s.showHelp = false)
    (hc : s.modalCount = 0) (hstep : modalStep cp s ev = some s') :
    ModalPost cp s' := by
  obtain ⟨next, w⟩ := ev
  obtain ⟨mc, pb, pz, ss, sh⟩ := s
  dsimp only at hs hh hc
  subst hs hh hc
  cases w <;> cases next <;>
    simp only [modalStep, shownFlag, reduceIte, Option.some.injEq,
      reduceCtorEq] at hstep <;>
    subst hstep <;>
    simp [ModalPost, handleModalOpenChange, openModals]

theorem runModal_inv {cp : Bool} :
    ∀ (events : List (Bool × Which)) (s s' : ModalState),
      ModalPost cp s → runModal cp s events = some s' → ModalPost cp s' := by
  intro events
  induction events with
  | nil =>
    intro s s' hinv hrun
    simp only [runModal, Option.some.injEq] at hrun
    exact hrun ▸ hinv
  | cons ev rest ih =>
    intro s s' hinv hrun
    simp only [runModal] at hrun
    cases h : modalStep cp s ev with
    | none => rw [h] at hrun; exact absurd hrun (by simp)
    | some s1 => rw [h] at hrun; exact ih s1 s' (modalStep_inv hinv h) hrun

/-- C8 (amended): the modal open/close callback is memoized at mount with
an empty dependency list, so the pause state it saves before the first
pause-requesting context opens is the captured mount value `cp` (`false` in
the component), never the live pause flag; consequently, for every nonempty
valid interleaving of settings/help open and close events starting with no
dialog open, whenever the open-context count has returned to zero the
paused flag equals the captured value — the pre-modal pause state is not
restored. -/
theorem pause_overwritten_after_modals (cp : Bool) (events : List (Bool × Which))
    (s₀ s' : ModalState) (hs : s₀.showSettings = false) (hh : s₀.showHelp = false)
    (hc : s₀.modalCount = 0) (hne : events ≠ [])
    (hrun : runModal cp s₀ events = some s')
    (hzero : s'.modalCount = 0) : s'.paused = cp := by
  match events, hne with
  | ev :: rest, _ =>
    simp only [runModal] at hrun
    cases h : modalStep cp s₀ ev with
    | none => rw [h] at hrun; exact absurd hrun (by simp)
    | some s1 =>
      rw [h] at hrun
      exact (runModal_inv rest s1 s' (modalStart hs hh hc h) hrun).2.2 hzero

/-- Counterexample to C8 as stated: the game is paused (paused = true) when
the settings dialog is opened and closed; the memoized callback saved the
captured mount value false instead of the live pause state, so closing the
dialog resumes the game — the pre-modal paused = true state is not
restored. -/
theorem modal_pause_counterexample :
    runModal false ⟨0, false, true, false, false⟩
        [(true, .settings), (false, .settings)] =
      some ⟨0, false, false, false, false⟩ ∧
    (⟨0, false, false, false, false⟩ : ModalState).paused ≠
      (⟨0, false, true, false, false⟩ : ModalState).paused := by
  decide

/-- Witness for the amended C8 at the paused-then-settings scenario. -/
theorem pause_overwritten_after_modals_witness :
    runModal false ⟨0, false, true, false, false⟩
        [(true, .settings), (false, .settings)] =
      some ⟨0, false, false, false, false⟩ ∧
    (⟨0, false, false, false, false⟩ : ModalState).paused = false :=
  ⟨by decide,
   pause_overwritten_after_modals false
     [(true, .settings), (false, .settings)]
     ⟨0, false, true, false, false⟩ ⟨0, false, false, false, false⟩
     rfl rfl rfl (by decide) (by decide) (by decide)⟩

/-- C2: for each colored-hole symbol and each actor identity 1..4, exactly
one of liquid/hazard/neutral holds; the designated safe owner is liquid and
never hazarded by its own colour, every other identity is hazarded, and
liquid and hazard never hold together. -/
theorem coloredHole_classification (ch : Char) (pid : Nat)
    (hch : isColoredHole ch = true) (h1 : 1 ≤ pid) (h4 : pid ≤ 4) :
    ((isLiquidForPlayer ch pid = true ∧ isHazardFor ch pid = false ∧ neutralFor ch pid = false) ∨
     (isHazardFor ch pid = true ∧ isLiquidForPlayer ch pid = false ∧ neutralFor ch pid = false) ∨
     (neutralFor ch pid = true ∧ isLiquidForPlayer ch pid = false ∧ isHazardFor ch pid = false)) ∧
    (safePlayerForColoredHole ch = some pid →
      isLiquidForPlayer ch pid = true ∧ isHazardFor ch pid = false) ∧
    (safePlayerForColoredHole ch ≠ some pid →
      isHazardFor ch pid = true ∧ isLiquidForPlayer ch pid = false) ∧
    ¬(isLiquidForPlayer ch pid = true ∧ isHazardFor ch pid = true) := by
  have hcases : ch = 'f' ∨ ch = 'a' ∨ ch = 'e' ∨ ch = 'n' := by
    simpa [isColoredHole] using hch
  interval_cases pid <;>
    rcases hcases with h | h | h | h <;> subst h <;> decide

/-- Witness for C2 at the red hole and the Fire actor. -/
theorem coloredHole_classification_witness :
    isLiquidForPlayer 'f' 1 = true ∧ isHazardFor 'f' 1 = false := by
  have h := coloredHole_classification 'f' 1 (by decide) (by decide) (by decide)
  exact h.2.1 (by decide)

/-- C7: out-of-bounds tile coordinates resolve to the wall symbol, which is
solid regardless of the door state, so every solidity query whose world
point falls outside the grid returns solid. -/
theorem out_of_bounds_is_wall (level : Level) (tx ty : Int)
    (h : tx < 0 ∨ tx ≥ level.w ∨ ty < 0 ∨ ty ≥ level.h) :
    tileAt level tx ty = '#' ∧
    (∀ d : Bool, isSolid (tileAt level tx ty) d = true) ∧
    (∀ x y : ℚ, worldToTile x y level.tileSize = (tx, ty) → solidAt level x y = true) := by
  have ht : tileAt level tx ty = '#' := by
    unfold tileAt
    rw [if_pos]
    tauto
  refine ⟨ht, fun d => ?_, fun x y hxy => ?_⟩
  · rw [ht]; cases d <;> rfl
  · simp only [solidAt, hxy, ht]
    cases level.doorOpen <;> rfl

/-- Witness for C7 at coordinate (-1, 0) of a one-cell level. -/
theorem out_of_bounds_is_wall_witness :
    tileAt ⟨[['.']], 1, 1, 32, false⟩ (-1) 0 = '#' :=
  (out_of_bounds_is_wall ⟨[['.']], 1, 1, 32, false⟩ (-1) 0 (by decide)).1

/-- C10: a hazard-triggered respawn increments the death counter but
leaves the dash-cooldown timestamp, the generic ability-cooldown timestamp
and the jump-lock flag exactly as they were before the hazard contact. -/
theorem hazard_respawn_preserves_cooldowns (level : Level) (centerChar : Char)
    (p : Player) (deaths : Nat)
    (hhaz : isHazardFor centerChar p.id = true ∨
      isHazardFor (tileCharAt level p.pos.x (p.pos.y + p.h / 2 + 2)) p.id = true) :
    (hazardPhase level centerChar p deaths).2 = deaths + 1 ∧
    (hazardPhase level centerChar p deaths).1.dashCooldownUntil = p.dashCooldownUntil ∧
    (hazardPhase level centerChar p deaths).1.abilityCooldownUntil = p.abilityCooldownUntil ∧
    (hazardPhase level centerChar p deaths).1.jumpLock = p.jumpLock := by
  unfold hazardPhase
  rw [if_pos]
  · exact ⟨rfl, rfl, rfl, rfl⟩
  · rcases hhaz with h | h <;> simp [h]

/-- Witness for C1: in an unpaused state with no actors and no plates both
sides of the win condition hold vacuously and the step enters the won
state. -/
theorem win_iff_gates_and_plates_witness :
    (loopStep (fun _ => []) (fun _ => envWit) 0 0 simWit).won = true :=
  (win_iff_gates_and_plates (fun _ => []) (fun _ => envWit) 0 0 simWit rfl rfl).mpr
    ⟨fun q hq => absurd hq (List.not_mem_nil q),
     fun st hst => absurd hst (List.not_mem_nil st)⟩

/-- Witness for C3 at a concrete unpaused state. -/
theorem doorOpen_recomputed_each_step_witness :
    (loopStep (fun _ => []) (fun _ => envWit) 0 0 simWit).level.doorOpen =
      decide (onPlatesCount simWit.level simWit.players ≥ 2) :=
  (doorOpen_recomputed_each_step (fun _ => []) (fun _ => envWit) 0 0 simWit rfl rfl).1

/-- Witness for C10: a respawn triggered by a poison-pool centre tile
increments the death counter and leaves the engaged jump-lock flag set. -/
theorem hazard_respawn_preserves_cooldowns_witness :
    (hazardPhase lvWit '~' playerWit 0).2 = 1 ∧
    (hazardPhase lvWit '~' playerWit 0).1.jumpLock = true := by
  have h := hazard_respawn_preserves_cooldowns lvWit '~' playerWit 0 (Or.inl (by decide))
  exact ⟨h.1, h.2.2.2.trans (by decide)⟩

theorem hazardPhase_hit (lv : Level) (cc : Char) (q : Player) (d : Nat)
    (h : isHazardFor cc q.id = true ∨
      isHazardFor (tileCharAt lv q.pos.x (q.pos.y + q.h / 2 + 2)) q.id = true) :
    hazardPhase lv cc q d =
      ({ q with
          pos := q.spawn
          vel := ⟨0, 0⟩
          alive := true
          exitReached := false
          airJumpsLeft := q.maxAirJumps
          isDashing := false
          dashUntil := 0 }, d + 1) := by
  unfold hazardPhase
  dsimp only
  rw [if_pos]
  rcases h with h | h <;> simp [h]

theorem tailPhases_post (j : Bool) (now : ℚ) (lv : Level) (tm : List TempPlatform)
    (e : List Vec2) (il : Bool) (q : Player) :
    PreservedPost
      (exitPhase e (abilityPhase j now lv tm q).1
        (stepFxPhase il now (abilityPhase j now lv tm q).2.2)) q := by
  obtain hab | hab := abilityPhase_player j now lv tm q <;>
    obtain ⟨c, hfx⟩ := stepFxPhase_eq il now (abilityPhase j now lv tm q).2.2 <;>
    rw [exitPhase_eq, hfx, hab] <;>
    exact ⟨rfl, rfl, rfl, rfl, rfl, rfl, rfl⟩

/-- C4 (amended): hazard contact is evaluated using the centre tile sampled
at the start of the update (before movement) together with the below-feet
tile sampled after collision resolution; on contact the actor respawns:
position set to spawn, velocity zeroed, air-jump budget refilled, dash
state cleared, the death counter incremented by exactly one, the alive flag
left true — and the jump-lock flag untouched by the respawn. -/
theorem hazard_respawn_on_contact (exits : List Vec2) (env : Env) (now dt : ℚ)
    (lv : Level) (plates : List PlateState) (temps : List TempPlatform)
    (prevA : Bool) (p : Player) (deaths : Nat)
    (hhaz : isHazardFor (tileCharAt lv p.pos.x p.pos.y) p.id = true ∨
      isHazardFor
        (tileCharAt lv (preMove env now dt lv p).pos.x
          ((preMove env now dt lv p).pos.y + (preMove env now dt lv p).h / 2 + 2))
        p.id = true) :
    (updatePlayer exits env now dt lv plates temps prevA p deaths).player.pos = p.spawn ∧
    (updatePlayer exits env now dt lv plates temps prevA p deaths).player.vel = ⟨0, 0⟩ ∧
    (updatePlayer exits env now dt lv plates temps prevA p deaths).player.airJumpsLeft =
      p.maxAirJumps ∧
    (updatePlayer exits env now dt lv plates temps prevA p deaths).player.isDashing = false ∧
    (updatePlayer exits env now dt lv plates temps prevA p deaths).player.dashUntil = 0 ∧
    (updatePlayer exits env now dt lv plates temps prevA p deaths).deaths = deaths + 1 ∧
    (updatePlayer exits env now dt lv plates temps prevA p deaths).player.alive = true ∧
    (updatePlayer exits env now dt lv plates temps prevA p deaths).player.jumpLock =
      (preMove env now dt lv p).jumpLock := by
  have hpre := preMove_pre env now dt lv p
  have hcond : isHazardFor (tileCharAt lv p.pos.x p.pos.y)
        (preMove env now dt lv p).id = true ∨
      isHazardFor
        (tileCharAt lv (preMove env now dt lv p).pos.x
          ((preMove env now dt lv p).pos.y + (preMove env now dt lv p).h / 2 + 2))
        (preMove env now dt lv p).id = true := by
    rw [hpre.1]
    exact hhaz
  unfold updatePlayer
  dsimp only
  rw [hazardPhase_hit lv (tileCharAt lv p.pos.x p.pos.y) (preMove env now dt lv p)
    deaths hcond]
  have hpost := tailPhases_post (env.actionDown && !prevA) now lv temps exits
    (isLiquidForPlayer (tileCharAt lv p.pos.x p.pos.y) p.id)
    { preMove env now dt lv p with
        pos := (preMove env now dt lv p).spawn
        vel := ⟨0, 0⟩
        alive := true
        exitReached := false
        airJumpsLeft := (preMove env now dt lv p).maxAirJumps
        isDashing := false
        dashUntil := 0 }
  obtain ⟨q1, q2, q3, q4, q5, q6, q7⟩ := hpost
  exact ⟨q1.trans hpre.2.1, q2, q3.trans hpre.2.2.2.2, q4, q5, rfl, q6, q7⟩

section ConcreteEval

attribute [local semireducible] Rat.mul Rat.inv Rat.add Rat.sub Rat.ofScientific

/-- Counterexample to C4 as stated.  First part: an actor that walks onto
the poison-pool tile during the step ends the update with a hazardous
centre tile, yet no respawn happened — position and velocity are untouched
and the death counter stays 0, because the code samples the centre tile
before movement.  Second part: a respawn that does fire leaves the engaged
jump-lock flag set, so the "jump state" is not cleared. -/
theorem hazard_eval_counterexample :
    (isHazardFor
        (tileCharAt (updatePlayer [] envRight 0 (1 / 60) lvHaz [] [] false pA 0).level
          (updatePlayer [] envRight 0 (1 / 60) lvHaz [] [] false pA 0).player.pos.x
          (updatePlayer [] envRight 0 (1 / 60) lvHaz [] [] false pA 0).player.pos.y)
        (updatePlayer [] envRight 0 (1 / 60) lvHaz [] [] false pA 0).player.id = true ∧
     (updatePlayer [] envRight 0 (1 / 60) lvHaz [] [] false pA 0).deaths = 0 ∧
     (updatePlayer [] envRight 0 (1 / 60) lvHaz [] [] false pA 0).player.pos ≠ pA.spawn ∧
     (updatePlayer [] envRight 0 (1 / 60) lvHaz [] [] false pA 0).player.vel ≠ ⟨0, 0⟩) ∧
    ((updatePlayer [] envWit 0 (1 / 60) lvHaz [] [] false pB 0).deaths = 1 ∧
     (updatePlayer [] envWit 0 (1 / 60) lvHaz [] [] false pB 0).player.pos = pB.spawn ∧
     (updatePlayer [] envWit 0 (1 / 60) lvHaz [] [] false pB 0).player.jumpLock = true) := by
  decide

/-- Witness for the amended C4 at the standing-on-poison scenario. -/
theorem hazard_respawn_on_contact_witness :
    (updatePlayer [] envWit 0 (1 / 60) lvHaz [] [] false pB 0).player.pos = pB.spawn ∧
    (updatePlayer [] envWit 0 (1 / 60) lvHaz [] [] false pB 0).deaths = 0 + 1 := by
  have h := hazard_respawn_on_contact [] envWit 0 (1 / 60) lvHaz [] [] false pB 0
    (Or.inl (by decide))
  exact ⟨h.1, h.2.2.2.2.2.1⟩

end ConcreteEval

theorem tileAt_ne_wall_inB (lv : Level) (tx ty : Int)
    (h : tileAt lv tx ty ≠ '#') :
    0 ≤ tx ∧ tx < lv.w ∧ 0 ≤ ty ∧ ty < lv.h := by
  unfold tileAt at h
  by_cases hb : ty < 0 ∨ ty ≥ lv.h ∨ tx < 0 ∨ tx ≥ lv.w
  · rw [if_pos hb] at h
    exact absurd rfl h
  · push_neg at hb
    exact ⟨hb.2.2.1, hb.2.2.2, hb.1, hb.2.1⟩

theorem canPlace_inB (lv : Level) (tx ty : Int) (h : canPlace lv tx ty = true) :
    0 ≤ tx ∧ tx < lv.w ∧ 0 ≤ ty ∧ ty < lv.h := by
  refine tileAt_ne_wall_inB lv tx ty ?_
  unfold canPlace at h
  simp only [Bool.or_eq_true, decide_eq_true_eq, isColoredHole] at h
  intro hw
  rw [hw] at h
  simp at h

theorem canPlace_ne_X (lv : Level) (tx ty : Int) (h : canPlace lv tx ty = true) :
    tileAt lv tx ty ≠ 'X' := by
  unfold canPlace at h
  simp only [Bool.or_eq_true, decide_eq_true_eq, isColoredHole] at h
  intro hx
  rw [hx] at h
  simp at h

/-- `doEarthAction` either fails and changes nothing, or places at a tile
satisfying `canPlace`, pushing the entry and evicting the shifted oldest
entry over the cap. -/
theorem doEarthAction_cases (lv : Level) (tm : List TempPlatform) (p : Player)
    (now : ℚ) :
    doEarthAction lv tm p now = (lv, tm, false) ∨
    ∃ c : Coord, canPlace lv c.1 c.2 = true ∧
      doEarthAction lv tm p now =
        (if (tm ++ [(⟨c.1, c.2, now + 7000⟩ : TempPlatform)]).length > 12 then
          match tm ++ [(⟨c.1, c.2, now + 7000⟩ : TempPlatform)] with
          | [] => (setTile lv c.1 c.2 'X', tm ++ [(⟨c.1, c.2, now + 7000⟩ : TempPlatform)], true)
          | oldest :: restTemps =>
            (setTile (setTile lv c.1 c.2 'X') oldest.tx oldest.ty '.', restTemps, true)
        else (setTile lv c.1 c.2 'X', tm ++ [(⟨c.1, c.2, now + 7000⟩ : TempPlatform)], true)) := by
  unfold doEarthAction
  dsimp only
  set under := worldToTile p.pos.x (p.pos.y + p.h / 2 + 4) lv.tileSize with hu
  set ahead := worldToTile (p.pos.x + (p.facing : ℚ) * (p.w / 2 + 8)) p.pos.y lv.tileSize with ha
  by_cases h1 : canPlace lv under.1 under.2 = true
  · rw [if_pos h1]
    exact Or.inr ⟨under, h1, rfl⟩
  · rw [if_neg h1]
    by_cases h2 : canPlace lv ahead.1 ahead.2 = true
    · rw [if_pos h2]
      exact Or.inr ⟨ahead, h2, rfl⟩
    · rw [if_neg h2]
      exact Or.inl rfl

theorem doEarthAction_not_placed (lv : Level) (tm : List TempPlatform) (p : Player)
    (now : ℚ) (h : (doEarthAction lv tm p now).2.2 = false) :
    doEarthAction lv tm p now = (lv, tm, false) := by
  rcases doEarthAction_cases lv tm p now with hc | ⟨c, hcp, hc⟩
  · exact hc
  · rw [hc] at h
    split_ifs at h with hl
    · rcases htm : tm ++ [(⟨c.1, c.2, now + 7000⟩ : TempPlatform)] with - | ⟨o, r⟩
      · exact absurd htm (by simp)
      · rw [htm] at h
        simp at h

theorem sameMeta_earthRun :
    ∀ (calls : List (Player × ℚ)) (lv : Level) (tm : List TempPlatform),
      sameMeta (earthRun lv tm calls).1 lv := by
  intro calls
  induction calls with
  | nil => intro lv tm; exact sameMeta_refl lv
  | cons c rest ih =>
    intro lv tm
    simp only [earthRun]
    exact sameMeta_trans (ih _ _) (sameMeta_doEarthAction lv tm c.1 c.2)

theorem WF_earthRun :
    ∀ (calls : List (Player × ℚ)) (lv : Level) (tm : List TempPlatform),
      WF lv → WF (earthRun lv tm calls).1 := by
  intro calls
  induction calls with
  | nil => intro lv tm h; exact h
  | cons c rest ih =>
    intro lv tm h
    simp only [earthRun]
    exact ih _ _ (WF_doEarthAction lv tm c.1 c.2 h)

theorem earthRun_append :
    ∀ (xs ys : List (Player × ℚ)) (lv : Level) (tm : List TempPlatform),
      earthRun lv tm (xs ++ ys) =
        ((earthRun (earthRun lv tm xs).1 (earthRun lv tm xs).2.1 ys).1,
         (earthRun (earthRun lv tm xs).1 (earthRun lv tm xs).2.1 ys).2.1,
         (earthRun lv tm xs).2.2 &&
           (earthRun (earthRun lv tm xs).1 (earthRun lv tm xs).2.1 ys).2.2) := by
  intro xs
  induction xs with
  | nil =>
    intro ys lv tm
    simp only [List.nil_append, earthRun, Bool.true_and]
  | cons x rest ih =>
    intro ys lv tm
    simp only [List.cons_append, earthRun, List.append_eq]
    rw [ih]
    simp [Bool.and_assoc]

theorem earthRun_build :
    ∀ (calls : List (Player × ℚ)) (lv : Level) (tm : List TempPlatform),
      tm.length + calls.length ≤ 12 →
      (earthRun lv tm calls).2.2 = true →
      (earthRun lv tm calls).2.1.length = tm.length + calls.length ∧
      ∃ news, (earthRun lv tm calls).2.1 = tm ++ news := by
  intro calls
  induction calls with
  | nil =>
    intro lv tm hlen hrun
    exact ⟨by simp [earthRun], [], by simp [earthRun]⟩
  | cons c rest ih =>
    intro lv tm hlen hrun
    simp only [earthRun, Bool.and_eq_true] at hrun
    obtain ⟨hp, hr⟩ := hrun
    rcases doEarthAction_cases lv tm c.1 c.2 with hc | ⟨cc, hcp, hc⟩
    · rw [hc] at hp
      simp at hp
    · have hnotgt : ¬ ((tm ++ [(⟨cc.1, cc.2, c.2 + 7000⟩ : TempPlatform)]).length > 12) := by
        simp only [List.length_append, List.length_cons, List.length_nil]
        simp only [List.length_cons] at hlen
        omega
      rw [if_neg hnotgt] at hc
      simp only [earthRun, hc]
      have hlen2 : (tm ++ [(⟨cc.1, cc.2, c.2 + 7000⟩ : TempPlatform)]).length + rest.length ≤ 12 := by
        simp only [List.length_append, List.length_cons, List.length_nil]
        simp only [List.length_cons] at hlen
        omega
      have hr2 : (earthRun (setTile lv cc.1 cc.2 'X')
          (tm ++ [(⟨cc.1, cc.2, c.2 + 7000⟩ : TempPlatform)]) rest).2.2 = true := by
        simp only [earthRun, hc] at hr
        exact hr
      obtain ⟨hl, news, hnews⟩ := ih (setTile lv cc.1 cc.2 'X')
        (tm ++ [(⟨cc.1, cc.2, c.2 + 7000⟩ : TempPlatform)]) hlen2 hr2
      refine ⟨?_, (⟨cc.1, cc.2, c.2 + 7000⟩ : TempPlatform) :: news, ?_⟩
      · rw [hl]
        simp only [List.length_append, List.length_cons, List.length_nil]
        omega
      · rw [hnews]
        simp

/-- C5: an Earth attempt during the active cooldown creates no registry
entry and leaves the cooldown timestamp unchanged; the cooldown is armed
only on a successful placement (a failed attempt changes nothing); and 13
successive successful placements starting from an empty registry leave
exactly 12 live entries, the 1st placement's tile having been reverted to
empty by the oldest-first eviction at the cap of 12. -/
theorem earth_cooldown_and_cap (lv : Level) (tm : List TempPlatform) (p : Player)
    (now : ℚ) (lvE : Level) (c0 : Player × ℚ) (mid : List (Player × ℚ))
    (clast : Player × ℚ) (hwf : WF lvE) (hmid : mid.length = 11)
    (hrun : (earthRun lvE [] (c0 :: (mid ++ [clast]))).2.2 = true) :
    ((p.id = 3 → now < p.abilityCooldownUntil →
       abilityPhase true now lv tm p = (lv, tm, p)) ∧
     (p.id = 3 → now ≥ p.abilityCooldownUntil →
       (doEarthAction lv tm p now).2.2 = false →
       abilityPhase true now lv tm p = (lv, tm, p)) ∧
     (earthRun lvE [] (c0 :: (mid ++ [clast]))).2.1.length = 12 ∧
     tileAt (earthRun lvE [] (c0 :: (mid ++ [clast]))).1
       (doEarthAction lvE [] c0.1 c0.2).2.1.headI.tx
       (doEarthAction lvE [] c0.1 c0.2).2.1.headI.ty = '.') := by
  refine ⟨fun hid hcd => ?_, fun hid hcd hfail => ?_, ?_⟩
  · unfold abilityPhase
    rw [if_pos rfl, if_neg (by omega : ¬ p.id = 1), if_neg (by omega : ¬ p.id = 2),
      if_pos hid, if_neg (not_le.mpr hcd)]
  · unfold abilityPhase
    rw [if_pos rfl, if_neg (by omega : ¬ p.id = 1), if_neg (by omega : ¬ p.id = 2),
      if_pos hid, if_pos hcd]
    dsimp only
    rw [if_neg (by rw [hfail]; simp)]
    rw [doEarthAction_not_placed lv tm p now hfail]
  · -- the 13-placement run
    have hsplit := hrun
    simp only [earthRun, Bool.and_eq_true] at hsplit
    obtain ⟨hp0, hrest⟩ := hsplit
    rcases doEarthAction_cases lvE [] c0.1 c0.2 with hc0 | ⟨cc, hcp, hc0⟩
    · rw [hc0] at hp0
      simp at hp0
    · have hnotgt :
          ¬ ((([] : List TempPlatform) ++ [(⟨cc.1, cc.2, c0.2 + 7000⟩ : TempPlatform)]).length > 12) := by
        simp
      rw [if_neg hnotgt] at hc0
      rw [earthRun_append] at hrest
      rw [Bool.and_eq_true] at hrest
      obtain ⟨hmidp, hlastp⟩ := hrest
      rw [hc0] at hmidp hlastp
      dsimp only at hmidp hlastp
      -- build facts after the first 12 placements
      obtain ⟨hlen12, news, hnews⟩ := earthRun_build mid (setTile lvE cc.1 cc.2 'X')
        ([] ++ [(⟨cc.1, cc.2, c0.2 + 7000⟩ : TempPlatform)]) (by simp [hmid]) hmidp
      have hWF12 : WF (earthRun (setTile lvE cc.1 cc.2 'X')
          ([] ++ [(⟨cc.1, cc.2, c0.2 + 7000⟩ : TempPlatform)]) mid).1 :=
        WF_earthRun mid _ _ (WF_setTile lvE cc.1 cc.2 'X' hwf)
      have hmeta12 : sameMeta (earthRun (setTile lvE cc.1 cc.2 'X')
          ([] ++ [(⟨cc.1, cc.2, c0.2 + 7000⟩ : TempPlatform)]) mid).1 lvE :=
        sameMeta_trans (sameMeta_earthRun mid _ _) (sameMeta_setTile lvE cc.1 cc.2 'X')
      -- the final (13th) call
      simp only [earthRun, Bool.and_true] at hlastp
      rcases doEarthAction_cases
          (earthRun (setTile lvE cc.1 cc.2 'X')
            ([] ++ [(⟨cc.1, cc.2, c0.2 + 7000⟩ : TempPlatform)]) mid).1
          (earthRun (setTile lvE cc.1 cc.2 'X')
            ([] ++ [(⟨cc.1, cc.2, c0.2 + 7000⟩ : TempPlatform)]) mid).2.1
          clast.1 clast.2 with hcl | ⟨cl, hcpl, hcl⟩
      · rw [hcl] at hlastp
        simp at hlastp
      · have hA12 : (earthRun (setTile lvE cc.1 cc.2 'X')
            ([] ++ [(⟨cc.1, cc.2, c0.2 + 7000⟩ : TempPlatform)]) mid).2.1.length = 12 := by
          rw [hlen12, hmid]
          simp
        simp only [List.nil_append] at hnews hcl hA12
        have hnn : news.length = 11 := by
          have h12 := hA12
          rw [hnews] at h12
          simpa using h12
        rw [hnews] at hcl
        have hgt : (([(⟨cc.1, cc.2, c0.2 + 7000⟩ : TempPlatform)] ++ news) ++
            [(⟨cl.1, cl.2, clast.2 + 7000⟩ : TempPlatform)]).length > 12 := by
          simp [hnn]
        rw [if_pos hgt] at hcl
        simp only [List.cons_append, List.nil_append] at hcl
        simp only [earthRun]
        rw [earthRun_append]
        rw [hc0]
        dsimp only
        simp only [earthRun]
        simp only [List.nil_append]
        rw [hnews]
        simp only [List.cons_append, List.nil_append]
        rw [hcl]
        dsimp only
        simp only [List.nil_append, List.headI]
        constructor
        · simp [hnn]
        · have hinB := canPlace_inB lvE cc.1 cc.2 hcp
          have hW : (setTile (earthRun (setTile lvE cc.1 cc.2 'X')
              [(⟨cc.1, cc.2, c0.2 + 7000⟩ : TempPlatform)] mid).1 cl.1 cl.2 'X').w =
              lvE.w := by
            rw [setTile_w]
            exact hmeta12.1
          have hH : (setTile (earthRun (setTile lvE cc.1 cc.2 'X')
              [(⟨cc.1, cc.2, c0.2 + 7000⟩ : TempPlatform)] mid).1 cl.1 cl.2 'X').h =
              lvE.h := by
            rw [setTile_h]
            exact hmeta12.2.1
          refine tileAt_setTile_self _ _ _ '.' (WF_setTile _ _ _ 'X' hWF12)
            hinB.1 ?_ hinB.2.2.1 ?_
          · rw [hW]
            exact hinB.2.1
          · rw [hH]
            exact hinB.2.2.2

theorem floodSet_tile (lv : Level) (c : Coord) (tx ty : Int)
    (hO : tileAt lv c.1 c.2 = 'O') :
    tileAt (setTile lv c.1 c.2 'W') tx ty = tileAt lv tx ty ∨
    (tileAt lv tx ty = 'O' ∧ tileAt (setTile lv c.1 c.2 'W') tx ty = 'W') := by
  rcases tileAt_setTile_or lv c.1 c.2 'W' tx ty with hset | hset
  · by_cases hold : tileAt lv tx ty = 'W'
    · exact Or.inl (hset.trans hold.symm)
    · refine Or.inr ⟨?_, hset⟩
      by_cases hco : tx = c.1 ∧ ty = c.2
      · obtain ⟨rfl, rfl⟩ := hco
        exact hO
      · rw [tileAt_setTile_ne lv c.1 c.2 'W' tx ty (by tauto)] at hset
        exact absurd hset hold
  · exact Or.inl hset

theorem floodLoop_tile (maxFill : Nat) :
    ∀ (lv : Level) (q seen : List Coord) (count : Nat) (tx ty : Int),
      tileAt (floodLoop maxFill lv q seen count).1 tx ty = tileAt lv tx ty ∨
      (tileAt lv tx ty = 'O' ∧
       tileAt (floodLoop maxFill lv q seen count).1 tx ty = 'W') := by
  intro lv q seen count
  induction lv, q, seen, count using floodLoop.induct maxFill with
  | case1 lv seen count => intro tx ty; rw [floodLoop]; exact Or.inl rfl
  | case2 lv c rest seen count hlt hO ih =>
    intro tx ty
    rw [floodLoop]
    simp only [dif_pos hlt, if_pos hO]
    exact ih tx ty
  | case3 lv c rest seen count hlt hO level' step ih =>
    intro tx ty
    rw [floodLoop]
    simp only [dif_pos hlt, if_neg hO]
    push_neg at hO
    rcases ih tx ty with hrest | ⟨hO2, hW⟩
    · rcases floodSet_tile lv c tx ty hO with hstep | ⟨hO1, hW1⟩
      · exact Or.inl (hrest.trans hstep)
      · exact Or.inr ⟨hO1, hrest.trans hW1⟩
    · rcases floodSet_tile lv c tx ty hO with hstep | ⟨hO1, hW1⟩
      · exact Or.inr ⟨hstep ▸ hO2, hW⟩
      · exact Or.inr ⟨hO1, hW⟩
  | case4 lv c rest seen count hge =>
    intro tx ty
    rw [floodLoop]
    simp only [dif_neg hge]
    exact Or.inl trivial

theorem doWaterAction_tile (lv : Level) (p : Player) (tx ty : Int) :
    tileAt (doWaterAction lv p) tx ty = tileAt lv tx ty ∨
    (tileAt lv tx ty = 'O' ∧ tileAt (doWaterAction lv p) tx ty = 'W') := by
  unfold doWaterAction
  dsimp only
  split
  · exact Or.inl rfl
  · exact floodLoop_tile 2000 lv _ _ 0 tx ty

theorem EPRInv_doFireAction (lv : Level) (tm : List TempPlatform) (p : Player)
    (hinv : EPRInv lv tm) :
    EPRInv (doFireAction lv tm p).1 (doFireAction lv tm p).2 ∧
    (doFireAction lv tm p).2.Sublist tm := by
  refine ⟨⟨fun tp htp => ?_, ?_⟩, ?_⟩
  · have := List.mem_filter.mp htp
    simpa using this.2
  · exact hinv.2.sublist ((List.filter_sublist tm).map _)
  · exact List.filter_sublist tm

theorem EPRInv_doWaterAction (lv : Level) (tm : List TempPlatform) (p : Player)
    (hinv : EPRInv lv tm) : EPRInv (doWaterAction lv p) tm := by
  refine ⟨fun tp htp => ?_, hinv.2⟩
  rcases doWaterAction_tile lv p tp.tx tp.ty with heq | ⟨hO, -⟩
  · exact heq.trans (hinv.1 tp htp)
  · exact absurd (hO.symm.trans (hinv.1 tp htp)) (by decide)

theorem expireGo_inv (now : ℚ) :
    ∀ (remaining : List TempPlatform) (lv : Level) (kept : List TempPlatform),
      (∀ tp ∈ kept ++ remaining, tileAt lv tp.tx tp.ty = 'X') →
      ((kept ++ remaining).map fun tp => ((tp.tx, tp.ty) : Coord)).Nodup →
      (∀ tp ∈ (remaining.foldl (expireStep now) (lv, kept)).2,
        tileAt (remaining.foldl (expireStep now) (lv, kept)).1 tp.tx tp.ty = 'X') ∧
      ((remaining.foldl (expireStep now) (lv, kept)).2.map
        fun tp => ((tp.tx, tp.ty) : Coord)).Nodup ∧
      (remaining.foldl (expireStep now) (lv, kept)).2.Sublist (kept ++ remaining) := by
  intro remaining
  induction remaining with
  | nil =>
    intro lv kept hX hnd
    simp only [List.foldl_nil, List.append_nil] at *
    exact ⟨hX, hnd, List.Sublist.refl kept⟩
  | cons tp rest ih =>
    intro lv kept hX hnd
    simp only [List.foldl_cons]
    have htpX : tileAt lv tp.tx tp.ty = 'X' :=
      hX tp (by simp)
    by_cases hexp : now ≥ tp.expiresAt
    · have hstep : expireStep now (lv, kept) tp = (setTile lv tp.tx tp.ty '.', kept) := by
        unfold expireStep
        rw [if_pos hexp]
        dsimp only
        rw [if_pos htpX]
      rw [hstep]
      have hcoordtp : ∀ q ∈ kept ++ rest, (q.tx, q.ty) ≠ ((tp.tx, tp.ty) : Coord) := by
        intro q hq hco
        have hperm : ((kept ++ tp :: rest).map fun r => ((r.tx, r.ty) : Coord)).Nodup := hnd
        have : (tp.tx, tp.ty) ∈ (kept ++ rest).map fun r => ((r.tx, r.ty) : Coord) := by
          exact List.mem_map.mpr ⟨q, hq, hco⟩
        have hnd2 : ((tp :: (kept ++ rest)).map fun r => ((r.tx, r.ty) : Coord)).Nodup := by
          refine (List.Perm.nodup_iff (List.Perm.map _ ?_)).mpr hperm
          exact (List.perm_middle).symm
        simp only [List.map_cons, List.nodup_cons] at hnd2
        exact hnd2.1 this
      have hX2 : ∀ q ∈ kept ++ rest, tileAt (setTile lv tp.tx tp.ty '.') q.tx q.ty = 'X' := by
        intro q hq
        rw [tileAt_setTile_ne lv tp.tx tp.ty '.' q.tx q.ty]
        · exact hX q (by rcases List.mem_append.mp hq with h | h <;> simp [h])
        · have := hcoordtp q hq
          by_contra hcon
          push_neg at hcon
          exact this (by rw [hcon.1, hcon.2])
      have hnd2 : ((kept ++ rest).map fun r => ((r.tx, r.ty) : Coord)).Nodup := by
        refine hnd.sublist (List.Sublist.map _ ?_)
        exact List.Sublist.append_left (List.sublist_cons_self tp rest) kept
      obtain ⟨r1, r2, r3⟩ := ih (setTile lv tp.tx tp.ty '.') kept hX2 hnd2
      refine ⟨r1, r2, r3.trans ?_⟩
      exact List.Sublist.append_left (List.sublist_cons_self tp rest) kept
    · have hstep : expireStep now (lv, kept) tp = (lv, kept ++ [tp]) := by
        unfold expireStep
        rw [if_neg hexp]
      rw [hstep]
      have hre : (kept ++ [tp]) ++ rest = kept ++ tp :: rest := by simp
      obtain ⟨r1, r2, r3⟩ := ih lv (kept ++ [tp]) (by rw [hre]; exact hX) (by rw [hre]; exact hnd)
      exact ⟨r1, r2, by rw [← hre]; exact r3⟩

theorem EPRInv_expireTemps (now : ℚ) (lv : Level) (tm : List TempPlatform)
    (hinv : EPRInv lv tm) :
    EPRInv (expireTemps now lv tm).1 (expireTemps now lv tm).2 ∧
    (expireTemps now lv tm).2.Sublist tm := by
  obtain ⟨r1, r2, r3⟩ := expireGo_inv now tm lv []
    (by simpa using hinv.1) (by simpa using hinv.2)
  exact ⟨⟨r1, r2⟩, by simpa using r3⟩

theorem EPRInv_doEarthAction (lv : Level) (tm : List TempPlatform) (p : Player)
    (now : ℚ) (hwf : WF lv) (hinv : EPRInv lv tm) :
    EPRInv (doEarthAction lv tm p now).1 (doEarthAction lv tm p now).2.1 ∧
    ∃ e, (doEarthAction lv tm p now).2.1.Sublist (tm ++ [e]) := by
  rcases doEarthAction_cases lv tm p now with hc | ⟨c, hcp, hc⟩
  · rw [hc]
    exact ⟨hinv, ⟨⟨0, 0, 0⟩, List.sublist_append_left tm _⟩⟩
  · have hinB := canPlace_inB lv c.1 c.2 hcp
    have hfresh : ∀ tp ∈ tm, ((tp.tx, tp.ty) : Coord) ≠ c := by
      intro tp htp hco
      have hX := hinv.1 tp htp
      rw [show tp.tx = c.1 from congrArg Prod.fst hco,
        show tp.ty = c.2 from congrArg Prod.snd hco] at hX
      exact canPlace_ne_X lv c.1 c.2 hcp hX
    have hX1 : ∀ tp ∈ tm ++ [(⟨c.1, c.2, now + 7000⟩ : TempPlatform)],
        tileAt (setTile lv c.1 c.2 'X') tp.tx tp.ty = 'X' := by
      intro tp htp
      rcases List.mem_append.mp htp with h | h
      · rw [tileAt_setTile_ne lv c.1 c.2 'X' tp.tx tp.ty]
        · exact hinv.1 tp h
        · have := hfresh tp h
          by_contra hcon
          push_neg at hcon
          refine this ?_
          rw [hcon.1, hcon.2]
        
      · simp only [List.mem_singleton] at h
        subst h
        exact tileAt_setTile_self lv c.1 c.2 'X' hwf hinB.1 hinB.2.1 hinB.2.2.1 hinB.2.2.2
    have hnd1 : ((tm ++ [(⟨c.1, c.2, now + 7000⟩ : TempPlatform)]).map
        fun tp => ((tp.tx, tp.ty) : Coord)).Nodup := by
      rw [List.map_append]
      rw [List.nodup_append]
      refine ⟨hinv.2, by simp, ?_⟩
      intro a ha hb
      simp only [List.map_cons, List.map_nil, List.mem_singleton] at hb
      obtain ⟨tp, htp, hco⟩ := List.mem_map.mp ha
      exact hfresh tp htp (by rw [hco, hb])
    rw [hc]
    split_ifs with hgt
    · rcases htm1 : tm ++ [(⟨c.1, c.2, now + 7000⟩ : TempPlatform)] with - | ⟨o, r⟩
      · exact absurd htm1 (by simp)
      · rw [htm1] at hX1 hnd1
        simp only [List.map_cons, List.nodup_cons] at hnd1
        refine ⟨⟨fun tp htp => ?_, hnd1.2⟩, ⟨⟨c.1, c.2, now + 7000⟩, ?_⟩⟩
        · rw [tileAt_setTile_ne _ o.tx o.ty '.' tp.tx tp.ty]
          · exact hX1 tp (by simp [htp])
          · by_contra hcon
            push_neg at hcon
            refine hnd1.1 ?_
            refine List.mem_map.mpr ⟨tp, htp, ?_⟩
            rw [hcon.1, hcon.2]
        · rw [htm1]
          exact List.sublist_cons_self o r
    · exact ⟨⟨hX1, hnd1⟩, ⟨⟨c.1, c.2, now + 7000⟩, List.Sublist.refl _⟩⟩

/-- C9: between simulation operations every Ephemeral Platform Registry
entry refers to a tile currently holding the earth-platform symbol and the
registry stays in insertion (oldest-first) order: the Fire break filters
stale entries, the Water flood never touches platform tiles, the expiry
sweep drops expired entries, and a placement appends one entry, evicting
the shifted oldest one (reverting its tile) over the cap. -/
theorem epr_registry_invariant (lv : Level) (tm : List TempPlatform) (p : Player)
    (now : ℚ) (hwf : WF lv) (hinv : EPRInv lv tm) :
    (EPRInv (doFireAction lv tm p).1 (doFireAction lv tm p).2 ∧
      (doFireAction lv tm p).2.Sublist tm) ∧
    EPRInv (doWaterAction lv p) tm ∧
    (EPRInv (expireTemps now lv tm).1 (expireTemps now lv tm).2 ∧
      (expireTemps now lv tm).2.Sublist tm) ∧
    (EPRInv (doEarthAction lv tm p now).1 (doEarthAction lv tm p now).2.1 ∧
      ∃ e, (doEarthAction lv tm p now).2.1.Sublist (tm ++ [e])) :=
  ⟨EPRInv_doFireAction lv tm p hinv, EPRInv_doWaterAction lv tm p hinv,
   EPRInv_expireTemps now lv tm hinv, EPRInv_doEarthAction lv tm p now hwf hinv⟩


theorem Reach_O {orig : Level} {seeds : List Coord} {c : Coord}
    (h : Reach orig seeds c) : tileAt orig c.1 c.2 = 'O' := by
  cases h with
  | seed c hc hO => exact hO
  | step c n hr hadj hO => exact hO

theorem Reach_in_R {orig : Level} {seeds : List Coord} {R : Finset Coord}
    (hseedR : ∀ s ∈ seeds, s ∈ R)
    (hclosed : ∀ c ∈ R, ∀ d ∈ dirs8,
      tileAt orig (c.1 + d.1) (c.2 + d.2) = 'O' → (c.1 + d.1, c.2 + d.2) ∈ R)
    {c : Coord} (h : Reach orig seeds c) : c ∈ R := by
  induction h with
  | seed c hc hO => exact hseedR c hc
  | step c n hr hadj hO ih =>
    have := hclosed c ih (n.1 - c.1, n.2 - c.2) hadj
    simp only [add_sub_cancel] at this
    simpa using this hO

/-- Unconditional conversion cap: the flood loop changes at most
`maxFill - count` tiles beyond the current level. -/
theorem floodLoop_cap (maxFill : Nat) :
    ∀ (lv : Level) (q seen : List Coord) (count : Nat),
      ∃ l : List Coord, l.length ≤ maxFill - count ∧
        ∀ tx ty : Int,
          tileAt (floodLoop maxFill lv q seen count).1 tx ty ≠ tileAt lv tx ty →
          (tx, ty) ∈ l := by
  intro lv q seen count
  induction lv, q, seen, count using floodLoop.induct maxFill with
  | case1 lv seen count =>
    exact ⟨[], by simp, fun tx ty h => absurd rfl (by rw [floodLoop] at h; exact h)⟩
  | case2 lv c rest seen count hlt hO ih =>
    obtain ⟨l, hl, hch⟩ := ih
    refine ⟨l, hl, fun tx ty h => hch tx ty ?_⟩
    rw [floodLoop] at h
    simp only [dif_pos hlt, if_pos hO] at h
    exact h
  | case3 lv c rest seen count hlt hO level' step ih =>
    obtain ⟨l, hl, hch⟩ := ih
    refine ⟨c :: l, by simp only [List.length_cons]; omega, fun tx ty h => ?_⟩
    rw [floodLoop] at h
    simp only [dif_pos hlt, if_neg hO] at h
    by_cases hc : (tx, ty) = c
    · simp [hc]
    · right
      refine hch tx ty ?_
      intro heq
      refine h ?_
      rw [heq]
      refine tileAt_setTile_ne lv c.1 c.2 'W' tx ty ?_
      by_contra hcon
      push_neg at hcon
      exact hc (by rw [hcon.1, hcon.2])
  | case4 lv c rest seen count hge =>
    refine ⟨[], by simp, fun tx ty h => absurd ?_ h⟩
    rw [floodLoop]
    simp only [dif_neg hge]

theorem floodPush_fold (lv' : Level) (c : Coord) :
    ∀ (ds : List (Int × Int)) (acc : List Coord × List Coord),
      (∀ x ∈ acc.1, x ∈ (ds.foldl (floodPush lv' c) acc).1) ∧
      (∀ x ∈ acc.2, x ∈ (ds.foldl (floodPush lv' c) acc).2) ∧
      (∀ x ∈ (ds.foldl (floodPush lv' c) acc).2,
        x ∈ acc.2 ∨ ((∃ d ∈ ds, x = (c.1 + d.1, c.2 + d.2)) ∧
          tileAt lv' x.1 x.2 = 'O' ∧ x ∈ (ds.foldl (floodPush lv' c) acc).1)) ∧
      (∀ x ∈ (ds.foldl (floodPush lv' c) acc).1,
        x ∈ acc.1 ∨ x ∈ (ds.foldl (floodPush lv' c) acc).2) ∧
      (∀ d ∈ ds, tileAt lv' (c.1 + d.1) (c.2 + d.2) = 'O' →
        (c.1 + d.1, c.2 + d.2) ∈ (ds.foldl (floodPush lv' c) acc).2) := by
  intro ds
  induction ds with
  | nil =>
    intro acc
    refine ⟨fun x hx => hx, fun x hx => hx, fun x hx => Or.inl hx,
      fun x hx => Or.inl hx, fun d hd => absurd hd (List.not_mem_nil d)⟩
  | cons d0 ds ih =>
    intro acc
    simp only [List.foldl_cons]
    obtain ⟨iha, ihb, ihc, ihd, ihe⟩ := ih (floodPush lv' c acc d0)
    have hstep : (floodPush lv' c acc d0 = acc) ∨
        ((c.1 + d0.1, c.2 + d0.2) ∉ acc.2 ∧
         tileAt lv' (c.1 + d0.1) (c.2 + d0.2) = 'O' ∧
         floodPush lv' c acc d0 =
           (acc.1 ++ [(c.1 + d0.1, c.2 + d0.2)], acc.2 ++ [(c.1 + d0.1, c.2 + d0.2)])) := by
      unfold floodPush
      dsimp only
      split_ifs with h
      · exact Or.inr ⟨h.1, h.2, rfl⟩
      · exact Or.inl rfl
    rcases hstep with hstep | ⟨hnm, hO, hstep⟩
    · rw [hstep] at iha ihb ihc ihd ihe
      rw [hstep]
      refine ⟨iha, ihb, fun x hx => ?_, ihd, fun d hd hO => ?_⟩
      · rcases ihc x hx with h | ⟨⟨d, hd, hx2⟩, h2, h3⟩
        · exact Or.inl h
        · exact Or.inr ⟨⟨d, by simp [hd], hx2⟩, h2, h3⟩
      · rcases List.mem_cons.mp hd with rfl | hd2
        · -- d0 case: it was not pushed because already seen (or the guard failed)
          have : (c.1 + d.1, c.2 + d.2) ∈ acc.2 := by
            unfold floodPush at hstep
            dsimp only at hstep
            by_contra hnm2
            rw [if_pos ⟨hnm2, hO⟩] at hstep
            have := congrArg (fun z => z.2.length) hstep
            simp at this
          exact ihb _ this
        · exact ihe d hd2 hO
    · rw [hstep] at iha ihb ihc ihd ihe
      rw [hstep]
      refine ⟨fun x hx => iha x (by simp [hx]), fun x hx => ihb x (by simp [hx]),
        fun x hx => ?_, fun x hx => ?_, fun d hd hO2 => ?_⟩
      · rcases ihc x hx with h | ⟨⟨d, hd, hx2⟩, h2, h3⟩
        · rcases List.mem_append.mp h with h | h
          · exact Or.inl h
          · simp only [List.mem_singleton] at h
            subst h
            exact Or.inr ⟨⟨d0, by simp, rfl⟩, hO, iha _ (by simp)⟩
        · exact Or.inr ⟨⟨d, by simp [hd], hx2⟩, h2, h3⟩
      · rcases ihd x hx with h | h
        · rcases List.mem_append.mp h with h | h
          · exact Or.inl h
          · simp only [List.mem_singleton] at h
            subst h
            exact Or.inr (ihb _ (by simp))
        · exact Or.inr h
      · rcases List.mem_cons.mp hd with rfl | hd2
        · exact ihb _ (by simp)
        · exact ihe d hd2 hO2

theorem floodLoop_main (orig : Level) (seeds : List Coord) (R : Finset Coord)
    (hseedR : ∀ s ∈ seeds, s ∈ R)
    (hclosed : ∀ c ∈ R, ∀ d ∈ dirs8,
      tileAt orig (c.1 + d.1) (c.2 + d.2) = 'O' → (c.1 + d.1, c.2 + d.2) ∈ R)
    (hcard : R.card < 2000) :
    ∀ (lv : Level) (q seen : List Coord) (count : Nat),
      WF lv → FloodInv orig seeds lv q seen →
      count ≤ (seen.toFinset.filter fun z =>
        tileAt lv z.1 z.2 = 'W' ∧ tileAt orig z.1 z.2 = 'O').card →
      (∀ c : Coord, Reach orig seeds c →
        tileAt (floodLoop 2000 lv q seen count).1 c.1 c.2 = 'W') ∧
      (∀ c : Coord, ¬ Reach orig seeds c →
        tileAt (floodLoop 2000 lv q seen count).1 c.1 c.2 = tileAt orig c.1 c.2) := by
  intro lv q seen count
  induction lv, q, seen, count using floodLoop.induct 2000 with
  | case1 lv seen count =>
    intro hwf hinv hcount
    obtain ⟨h1, h2, h3, h4, h5, h6⟩ := hinv
    rw [floodLoop]
    have hcomp : ∀ c : Coord, Reach orig seeds c → tileAt lv c.1 c.2 = 'W' := by
      intro c hr
      induction hr with
      | seed c hc hO =>
        rcases h6 c (h4 c hc) hO with hW | hq
        · exact hW
        · exact absurd hq (List.not_mem_nil c)
      | step c n hr hadj hO ih =>
        have hcO := Reach_O hr
        have hstep5 := h5 c hcO ih
        have e1 : c.1 + (n.1 - c.1) = n.1 := by ring
        have e2 : c.2 + (n.2 - c.2) = n.2 := by ring
        have hnseen := hstep5.2 (n.1 - c.1, n.2 - c.2) hadj
          (by dsimp only; rw [e1, e2]; exact hO)
        rw [show ((c.1 + (n.1 - c.1), c.2 + (n.2 - c.2)) : Coord) = n from by
          rw [e1, e2]] at hnseen
        rcases h6 n hnseen hO with hW | hq
        · exact hW
        · exact absurd hq (List.not_mem_nil n)
    refine ⟨hcomp, fun c hnr => ?_⟩
    rcases h1 c.1 c.2 with heq | ⟨hO, hW⟩
    · exact heq
    · exact absurd (h3 c (h5 (c.1, c.2) hO hW).1) hnr
  | case2 lv c rest seen count hlt hO ih =>
    intro hwf hinv hcount
    obtain ⟨h1, h2, h3, h4, h5, h6⟩ := hinv
    rw [floodLoop]
    simp only [dif_pos hlt, if_pos hO]
    refine ih hwf ⟨h1, fun x hx => h2 x (by simp [hx]), h3, h4, h5, ?_⟩ hcount
    intro x hxs hxO
    rcases h6 x hxs hxO with hW | hq
    · exact Or.inl hW
    · rcases List.mem_cons.mp hq with rfl | hq2
      · rcases h1 x.1 x.2 with heq | ⟨-, hW⟩
        · exact absurd (heq.trans hxO) hO
        · exact Or.inl hW
      · exact Or.inr hq2
  | case3 lv c rest seen count hlt hOn level' step ih =>
    intro hwf hinv hcount
    obtain ⟨h1, h2, h3, h4, h5, h6⟩ := hinv
    push_neg at hOn
    rw [floodLoop]
    simp only [dif_pos hlt, if_neg (by rw [hOn]; simp : ¬ tileAt lv c.1 c.2 ≠ 'O')]
    have hcseen : c ∈ seen := h2 c (by simp)
    have hcO_orig : tileAt orig c.1 c.2 = 'O' := by
      rcases h1 c.1 c.2 with heq | ⟨-, hW⟩
      · exact heq ▸ hOn
      · exact absurd (hW.symm.trans hOn) (by decide)
    have hinB := tileAt_ne_wall_inB lv c.1 c.2 (by rw [hOn]; decide)
    have hWF' : WF (setTile lv c.1 c.2 'W') := WF_setTile lv c.1 c.2 'W' hwf
    have hselfW : tileAt (setTile lv c.1 c.2 'W') c.1 c.2 = 'W' :=
      tileAt_setTile_self lv c.1 c.2 'W' hwf hinB.1 hinB.2.1 hinB.2.2.1 hinB.2.2.2
    obtain ⟨fa, fb, fc, fd, fe⟩ :=
      floodPush_fold (setTile lv c.1 c.2 'W') c dirs8 (rest, seen)
    have hdirne : ∀ d ∈ dirs8, ((c.1 + d.1, c.2 + d.2) : Coord) ≠ c := by
      intro d hd hco
      have h01 : d.1 = 0 := by
        have := congrArg Prod.fst hco
        dsimp only at this
        omega
      have h02 : d.2 = 0 := by
        have := congrArg Prod.snd hco
        dsimp only at this
        omega
      have : d = ((0, 0) : Int × Int) := by
        obtain ⟨a, b⟩ := d
        simp_all
      subst this
      revert hd
      decide
    have hne : ∀ x : Coord, x ≠ c →
        tileAt (setTile lv c.1 c.2 'W') x.1 x.2 = tileAt lv x.1 x.2 := by
      intro x hx
      refine tileAt_setTile_ne lv c.1 c.2 'W' x.1 x.2 ?_
      by_contra hcon
      push_neg at hcon
      exact hx (by obtain ⟨a, b⟩ := x; simp_all)
    refine ih hWF' ⟨?_, ?_, ?_, ?_, ?_, ?_⟩ ?_
    · intro tx ty
      by_cases hxc : ((tx, ty) : Coord) = c
      · obtain ⟨rfl, rfl⟩ : tx = c.1 ∧ ty = c.2 := by
          obtain ⟨a, b⟩ := c
          simp_all
        exact Or.inr ⟨hcO_orig, hselfW⟩
      · rw [hne (tx, ty) hxc]
        exact h1 tx ty
    · intro x hx
      rcases fd x hx with hx2 | hx2
      · exact fb x (h2 x (by simp [hx2]))
      · exact hx2
    · intro x hx
      rcases fc x hx with hx2 | ⟨⟨d, hd, rfl⟩, hO2, -⟩
      · exact h3 x hx2
      · have hOlv : tileAt lv (c.1 + d.1) (c.2 + d.2) = 'O' := by
          rw [← hne (c.1 + d.1, c.2 + d.2) (hdirne d hd)]
          exact hO2
        have hOorig : tileAt orig (c.1 + d.1) (c.2 + d.2) = 'O' := by
          rcases h1 (c.1 + d.1) (c.2 + d.2) with heq | ⟨-, hW⟩
          · exact heq ▸ hOlv
          · exact absurd (hW.symm.trans hOlv) (by decide)
        refine Reach.step c _ (h3 c hcseen) ?_ hOorig
        unfold adj8
        simpa using hd
    · intro s hs
      exact fb s (h4 s hs)
    · intro x hxO hxW
      by_cases hxc : x = c
      · subst hxc
        refine ⟨fb x hcseen, fun d hd hOnd => ?_⟩
        rcases h1 (x.1 + d.1) (x.2 + d.2) with heq | ⟨-, hW⟩
        · refine fe d hd ?_
          rw [hne (x.1 + d.1, x.2 + d.2) (hdirne d hd)]
          exact heq.trans hOnd
        · exact fb _ ((h5 (x.1 + d.1, x.2 + d.2) hOnd hW).1)
      · rw [hne x hxc] at hxW
        obtain ⟨hseen, hnb⟩ := h5 x hxO hxW
        exact ⟨fb x hseen, fun d hd hOnd => fb _ (hnb d hd hOnd)⟩
    · intro x hx hxO
      rcases fc x hx with hx2 | ⟨-, -, hq'⟩
      · by_cases hxc : x = c
        · subst hxc
          exact Or.inl hselfW
        · rcases h6 x hx2 hxO with hW | hq
          · exact Or.inl (by rw [hne x hxc]; exact hW)
          · rcases List.mem_cons.mp hq with rfl | hq2
            · exact absurd rfl hxc
            · exact Or.inr (fa x hq2)
      · exact Or.inr hq'
    · have hsub : (seen.toFinset.filter fun z =>
          tileAt lv z.1 z.2 = 'W' ∧ tileAt orig z.1 z.2 = 'O') ⊆
          (step.2.toFinset.filter fun z =>
            tileAt (setTile lv c.1 c.2 'W') z.1 z.2 = 'W' ∧
            tileAt orig z.1 z.2 = 'O') := by
        intro x hx
        rw [Finset.mem_filter] at hx ⊢
        obtain ⟨hxm, hxW, hxO⟩ := hx
        rw [List.mem_toFinset] at hxm
        refine ⟨List.mem_toFinset.mpr (fb x hxm), ?_, hxO⟩
        have hxc : x ≠ c := by
          intro hco
          rw [hco] at hxW
          exact absurd (hxW.symm.trans hOn) (by decide)
        rw [hne x hxc]
        exact hxW
      have hcnew : c ∈ (step.2.toFinset.filter fun z =>
          tileAt (setTile lv c.1 c.2 'W') z.1 z.2 = 'W' ∧
          tileAt orig z.1 z.2 = 'O') := by
        rw [Finset.mem_filter]
        exact ⟨List.mem_toFinset.mpr (fb c hcseen), hselfW, hcO_orig⟩
      have hcold : c ∉ (seen.toFinset.filter fun z =>
          tileAt lv z.1 z.2 = 'W' ∧ tileAt orig z.1 z.2 = 'O') := by
        rw [Finset.mem_filter]
        rintro ⟨-, hW, -⟩
        exact absurd (hW.symm.trans hOn) (by decide)
      have hins : insert c (seen.toFinset.filter fun z =>
          tileAt lv z.1 z.2 = 'W' ∧ tileAt orig z.1 z.2 = 'O') ⊆
          (step.2.toFinset.filter fun z =>
            tileAt (setTile lv c.1 c.2 'W') z.1 z.2 = 'W' ∧
            tileAt orig z.1 z.2 = 'O') := by
        rw [Finset.insert_subset_iff]
        exact ⟨hcnew, hsub⟩
      have := Finset.card_le_card hins
      rw [Finset.card_insert_of_not_mem hcold] at this
      show count + 1 ≤ (step.2.toFinset.filter fun z =>
        tileAt (setTile lv c.1 c.2 'W') z.1 z.2 = 'W' ∧
        tileAt orig z.1 z.2 = 'O').card
      omega
  | case4 lv c rest seen count hge =>
    intro hwf hinv hcount
    obtain ⟨h1, h2, h3, h4, h5, h6⟩ := hinv
    exfalso
    have hseenR : seen.toFinset ⊆ R := by
      intro x hx
      exact Reach_in_R hseedR hclosed (h3 x (List.mem_toFinset.mp hx))
    have hf : (seen.toFinset.filter fun z =>
        tileAt lv z.1 z.2 = 'W' ∧ tileAt orig z.1 z.2 = 'O') ⊆ R :=
      (Finset.filter_subset _ _).trans hseenR
    have := (hcount.trans (Finset.card_le_card hf))
    omega


theorem waterSeeds_O (lv : Level) (start : Coord) (s : Coord)
    (hs : s ∈ waterSeeds lv start) : tileAt lv s.1 s.2 = 'O' := by
  unfold waterSeeds at hs
  simp only [List.mem_flatMap, List.mem_filterMap] at hs
  obtain ⟨dy, hdy, dx, hdx, hsome⟩ := hs
  by_cases hO : tileAt lv (start.1 + dx) (start.2 + dy) = 'O'
  · rw [if_pos hO] at hsome
    obtain rfl := Option.some.inj hsome
    exact hO
  · rw [if_neg hO] at hsome
    exact absurd hsome (by simp)

theorem FloodInv_init (lv : Level) (seeds : List Coord)
    (hO : ∀ s ∈ seeds, tileAt lv s.1 s.2 = 'O') :
    FloodInv lv seeds lv seeds seeds := by
  refine ⟨fun tx ty => Or.inl rfl, fun c hc => hc,
    fun c hc => Reach.seed c hc (hO c hc), fun s hs => hs,
    fun c hcO hcW => absurd (hcO.symm.trans hcW) (by decide),
    fun c hc hcO => Or.inr hc⟩

/-- C6: on a Water action press, unconditionally: if no dark-hole tile lies
in the 3x3 neighbourhood of the actor's centre tile the level is unchanged,
every changed tile was a dark hole and became plain water (zero non-dark-hole
conversions), and at most 2000 tiles change in total; moreover, for every
coordinate set `R` that contains the seeds, is closed under 8-connected
dark-hole steps, and has fewer than 2000 tiles, the fill converts exactly
the dark-hole tiles reachable from the seeds. -/
theorem water_flood_exact (lv : Level) (p : Player) (hwf : WF lv) :
    (waterSeeds lv (worldToTile p.pos.x p.pos.y lv.tileSize) = [] →
      doWaterAction lv p = lv) ∧
    (∀ tx ty : Int, tileAt (doWaterAction lv p) tx ty ≠ tileAt lv tx ty →
      tileAt lv tx ty = 'O' ∧ tileAt (doWaterAction lv p) tx ty = 'W') ∧
    (∃ l : List Coord, l.length ≤ 2000 ∧
      ∀ tx ty : Int, tileAt (doWaterAction lv p) tx ty ≠ tileAt lv tx ty →
        (tx, ty) ∈ l) ∧
    (∀ R : Finset Coord,
      (∀ s ∈ waterSeeds lv (worldToTile p.pos.x p.pos.y lv.tileSize), s ∈ R) →
      (∀ c ∈ R, ∀ d ∈ dirs8,
        tileAt lv (c.1 + d.1) (c.2 + d.2) = 'O' → (c.1 + d.1, c.2 + d.2) ∈ R) →
      R.card < 2000 →
      (∀ c : Coord,
        Reach lv (waterSeeds lv (worldToTile p.pos.x p.pos.y lv.tileSize)) c →
        tileAt (doWaterAction lv p) c.1 c.2 = 'W') ∧
      (∀ c : Coord,
        ¬ Reach lv (waterSeeds lv (worldToTile p.pos.x p.pos.y lv.tileSize)) c →
        tileAt (doWaterAction lv p) c.1 c.2 = tileAt lv c.1 c.2)) := by
  have hpart2 : ∀ tx ty : Int,
      tileAt (doWaterAction lv p) tx ty ≠ tileAt lv tx ty →
      tileAt lv tx ty = 'O' ∧ tileAt (doWaterAction lv p) tx ty = 'W' := by
    intro tx ty hne
    rcases doWaterAction_tile lv p tx ty with heq | hb
    · exact absurd heq hne
    · exact hb
  by_cases hseed : waterSeeds lv (worldToTile p.pos.x p.pos.y lv.tileSize) = []
  · have hnoop : doWaterAction lv p = lv := by
      unfold doWaterAction
      dsimp only
      rw [if_pos hseed]
    refine ⟨fun _ => hnoop, hpart2,
      ⟨[], by simp, fun tx ty hne => absurd (by rw [hnoop]) hne⟩,
      fun R hseedR hclosed hcard => ⟨fun c hr => ?_, fun c _ => by rw [hnoop]⟩⟩
    exfalso
    rw [hseed] at hr
    induction hr with
    | seed c hc hO => exact absurd hc (List.not_mem_nil c)
    | step c n hr hadj hO ih => exact ih
  · have hrun : doWaterAction lv p =
        (floodLoop 2000 lv (waterSeeds lv (worldToTile p.pos.x p.pos.y lv.tileSize))
          (waterSeeds lv (worldToTile p.pos.x p.pos.y lv.tileSize)) 0).1 := by
      unfold doWaterAction
      dsimp only
      rw [if_neg hseed]
    obtain ⟨l, hl, hcov⟩ := floodLoop_cap 2000 lv
      (waterSeeds lv (worldToTile p.pos.x p.pos.y lv.tileSize))
      (waterSeeds lv (worldToTile p.pos.x p.pos.y lv.tileSize)) 0
    refine ⟨fun hs => absurd hs hseed, hpart2,
      ⟨l, by simpa using hl, fun tx ty hne => hcov tx ty ?_⟩,
      fun R hseedR hclosed hcard => ?_⟩
    · rw [← hrun]
      exact hne
    · have hinv := FloodInv_init lv
        (waterSeeds lv (worldToTile p.pos.x p.pos.y lv.tileSize))
        (waterSeeds_O lv (worldToTile p.pos.x p.pos.y lv.tileSize))
      obtain ⟨hcomp, hsound⟩ := floodLoop_main lv
        (waterSeeds lv (worldToTile p.pos.x p.pos.y lv.tileSize)) R hseedR hclosed hcard
        lv (waterSeeds lv (worldToTile p.pos.x p.pos.y lv.tileSize))
        (waterSeeds lv (worldToTile p.pos.x p.pos.y lv.tileSize)) 0 hwf hinv
        (Nat.zero_le _)
      exact ⟨fun c hr => by rw [hrun]; exact hcomp c hr,
        fun c hnr => by rw [hrun]; exact hsound c hnr⟩

section ConcreteEvalB

attribute [local semireducible] Rat.mul Rat.inv Rat.add Rat.sub Rat.ofScientific

/-- Witness for C5: thirteen successful placements on the flat level leave
12 registry entries and revert the first placement's tile to empty. -/
theorem earth_cooldown_and_cap_witness :
    (earthRun lvEarth [] (earthC0 :: (earthMid ++ [earthLast]))).2.1.length = 12 ∧
    tileAt (earthRun lvEarth [] (earthC0 :: (earthMid ++ [earthLast]))).1
      (doEarthAction lvEarth [] earthC0.1 earthC0.2).2.1.headI.tx
      (doEarthAction lvEarth [] earthC0.1 earthC0.2).2.1.headI.ty = '.' :=
  (earth_cooldown_and_cap lvEarth [] playerWit 0 lvEarth earthC0 earthMid earthLast
    (by unfold WF; decide) (by decide) (by decide)).2.2

/-- Witness for C9 at an empty registry on the flat level. -/
theorem epr_registry_invariant_witness :
    EPRInv (doWaterAction lvEarth playerWit) [] :=
  (epr_registry_invariant lvEarth [] playerWit 0 (by unfold WF; decide)
    (by unfold EPRInv; decide)).2.1

/-- Witness for C6: flooding the two adjacent dark holes of `lvWat`
converts both seed tiles to plain water. -/
theorem water_flood_exact_witness :
    tileAt (doWaterAction lvWat pWat) 2 1 = 'W' ∧
    tileAt (doWaterAction lvWat pWat) 3 1 = 'W' := by
  have h := water_flood_exact lvWat pWat (by unfold WF; decide)
  have h4 := h.2.2.2 RWat (by decide) (by decide) (by decide)
  exact ⟨h4.1 (2, 1) (Reach.seed ((2 : Int), (1 : Int)) (by decide) (by decide)),
    h4.1 (3, 1) (Reach.step ((2 : Int), (1 : Int)) ((3 : Int), (1 : Int))
      (Reach.seed ((2 : Int), (1 : Int)) (by decide) (by decide))
      (by unfold adj8; decide) (by decide))⟩

end ConcreteEvalB

end Platformer
